import Mathlib

/-!
Verification of the Round Table client core (roundtable.js).

The development shallowly embeds the record codec, the optimistic write
coordinator, the sync engine backoff state machine, the reaction
aggregator, the ETag file cache and the speaker queue.  Text is modelled
as lists of Unicode code points (`List Nat`); JavaScript integers that
appear in the modelled code stay within exact ranges, so `Nat` and `Int`
are used directly, and the result of `Number` on a string is modelled by
the exact mathematical value of the numeric literal (see
`jsStringToNumber`).
-/

namespace RoundTable

/-- Membership in the JavaScript whitespace class (the code points that
`String.prototype.trim`, `Number` and the regex class `\s` strip: TAB,
LF, VT, FF, CR, SPACE, NBSP, OGHAM SPACE MARK, the EN-QUAD..HAIR-SPACE
range U+2000-U+200A, LINE SEPARATOR, PARAGRAPH SEPARATOR, NARROW NO-BREAK
SPACE, MEDIUM MATHEMATICAL SPACE, IDEOGRAPHIC SPACE and BOM). -/
def isJsWs (c : Nat) : Bool :=
  c = 9 || c = 10 || c = 11 || c = 12 || c = 13 || c = 32 ||
  c = 160 || c = 5760 || (8192 ≤ c && c ≤ 8202) || c = 8232 ||
  c = 8233 || c = 8239 || c = 8287 || c = 12288 || c = 65279

/-- Models `String.prototype.trim`. -/
def trimJs (l : List Nat) : List Nat :=
  ((l.dropWhile isJsWs).reverse.dropWhile isJsWs).reverse

/-- Models `String.prototype.toUpperCase`, restricted to ASCII letters:
the keys this application uppercases are all ASCII. -/
def toUpperAscii (l : List Nat) : List Nat :=
  l.map (fun c => if 97 ≤ c && c ≤ 122 then c - 32 else c)

/-- Base64 alphabet of `btoa`: sextet value to character code. -/
def sextetChar (s : Nat) : Nat :=
  if s < 26 then 65 + s
  else if s < 52 then 97 + (s - 26)
  else if s < 62 then 48 + (s - 52)
  else if s = 62 then 43
  else 47

/-- Inverse base64 alphabet of `atob`: character code to sextet value. -/
def charSextet (c : Nat) : Option Nat :=
  if 65 ≤ c ∧ c ≤ 90 then some (c - 65)
  else if 97 ≤ c ∧ c ≤ 122 then some (c - 97 + 26)
  else if 48 ≤ c ∧ c ≤ 57 then some (c - 48 + 52)
  else if c = 43 then some 62
  else if c = 47 then some 63
  else none

/-- Models `btoa`: a byte sequence becomes base64 character codes with
trailing `=` padding (code 61). -/
def b64encode : List Nat → List Nat
  | [] => []
  | [a] => [sextetChar (a / 4), sextetChar (a % 4 * 16), 61, 61]
  | [a, b] => [sextetChar (a / 4), sextetChar (a % 4 * 16 + b / 16),
               sextetChar (b % 16 * 4), 61]
  | a :: b :: c :: rest =>
      sextetChar (a / 4) :: sextetChar (a % 4 * 16 + b / 16) ::
      sextetChar (b % 16 * 4 + c / 64) :: sextetChar (c % 64) ::
      b64encode rest

/-- Models `atob` on well-padded input: base64 character codes back to
bytes; malformed input yields `none` (where `atob` throws). -/
def b64decode : List Nat → Option (List Nat)
  | [] => some []
  | w :: x :: y :: z :: rest =>
      (charSextet w).bind fun sw =>
      (charSextet x).bind fun sx =>
      if y = 61 ∧ z = 61 ∧ rest = [] then
        some [sw * 4 + sx / 16]
      else if z = 61 ∧ rest = [] then
        (charSextet y).bind fun sy =>
        some [sw * 4 + sx / 16, sx % 16 * 16 + sy / 4]
      else
        (charSextet y).bind fun sy =>
        (charSextet z).bind fun sz =>
        (b64decode rest).bind fun bs =>
        some ((sw * 4 + sx / 16) :: (sx % 16 * 16 + sy / 4) ::
              (sy % 4 * 64 + sz) :: bs)
  | _ => none

theorem sextetChar_ne_61 (s : Nat) : sextetChar s ≠ 61 := by
  unfold sextetChar
  split <;> try omega
  split <;> try omega
  split <;> try omega
  split <;> omega

theorem sextetChar_lt_256 (s : Nat) : sextetChar s < 256 := by
  unfold sextetChar
  split <;> try omega
  split <;> try omega
  split <;> try omega
  split <;> omega

theorem charSextet_sextetChar (s : Nat) (h : s < 64) :
    charSextet (sextetChar s) = some s := by
  have hfin : ∀ t : Fin 64, charSextet (sextetChar t.val) = some t.val := by
    decide
  exact hfin ⟨s, h⟩

/-- Inversion of the base64 codec on byte sequences. -/
theorem b64decode_b64encode (l : List Nat) (hl : ∀ b ∈ l, b < 256) :
    b64decode (b64encode l) = some l := by
  induction l using b64encode.induct with
  | case1 => rfl
  | case2 a =>
      have ha : a < 256 := hl a (by simp)
      rw [b64encode, b64decode]
      rw [charSextet_sextetChar _ (by omega), charSextet_sextetChar _ (by omega)]
      simp only [Option.some_bind]
      rw [if_pos (by simp)]
      simp only [Option.some.injEq, List.cons.injEq, and_true]
      omega
  | case3 a b =>
      have ha : a < 256 := hl a (by simp)
      have hb : b < 256 := hl b (by simp)
      rw [b64encode, b64decode]
      rw [charSextet_sextetChar _ (by omega), charSextet_sextetChar _ (by omega)]
      simp only [Option.some_bind]
      rw [if_neg (by intro h; exact sextetChar_ne_61 _ h.1)]
      rw [if_pos (by simp)]
      rw [charSextet_sextetChar _ (by omega)]
      simp only [Option.some_bind, Option.some.injEq, List.cons.injEq, and_true]
      constructor <;> omega
  | case4 a b c rest ih =>
      have ha : a < 256 := hl a (by simp)
      have hb : b < 256 := hl b (by simp)
      have hc : c < 256 := hl c (by simp)
      have hrest : ∀ x ∈ rest, x < 256 := fun x hx => hl x (by simp [hx])
      rw [b64encode, b64decode]
      rw [charSextet_sextetChar _ (by omega), charSextet_sextetChar _ (by omega)]
      simp only [Option.some_bind]
      rw [if_neg (by intro h; exact sextetChar_ne_61 _ h.1)]
      rw [if_neg (by intro h; exact sextetChar_ne_61 _ h.1)]
      rw [charSextet_sextetChar _ (by omega), charSextet_sextetChar _ (by omega)]
      rw [ih hrest]
      simp only [Option.some_bind, Option.some.injEq, List.cons.injEq, and_true]
      refine ⟨by omega, by omega, by omega⟩

/-- Unicode scalar values: the code points a JavaScript string can hand
to `encodeURIComponent` without throwing (no lone surrogates). -/
def ValidScalar (c : Nat) : Prop := c < 1114112 ∧ (c < 55296 ∨ 57344 ≤ c)

instance (c : Nat) : Decidable (ValidScalar c) := by
  unfold ValidScalar; infer_instance

/-- UTF-8 encoding of one scalar value, as `encodeURIComponent` followed
by `unescape` produces it byte by byte. -/
def utf8EncodeChar (c : Nat) : List Nat :=
  if c < 128 then [c]
  else if c < 2048 then [192 + c / 64, 128 + c % 64]
  else if c < 65536 then [224 + c / 4096, 128 + c / 64 % 64, 128 + c % 64]
  else [240 + c / 262144, 128 + c / 4096 % 64, 128 + c / 64 % 64, 128 + c % 64]

/-- UTF-8 encoding of a scalar value sequence. -/
def utf8Encode : List Nat → List Nat
  | [] => []
  | c :: rest => utf8EncodeChar c ++ utf8Encode rest

/-- Handler for a two-byte UTF-8 sequence: leading byte `b`, next input
byte (if any) and the decoding of the remaining input. -/
def utf8Two (b : Nat) (nb : Option Nat) (rec2 : Option (List Nat)) :
    Option (List Nat) :=
  nb.bind fun b1 =>
    if 128 ≤ b1 ∧ b1 < 192 then
      if (b - 192) * 64 + (b1 - 128) < 128 then none
      else rec2.map (((b - 192) * 64 + (b1 - 128)) :: ·)
    else none

/-- Handler for a three-byte UTF-8 sequence (overlong forms and
surrogates rejected). -/
def utf8Three (b : Nat) (nb1 nb2 : Option Nat) (rec3 : Option (List Nat)) :
    Option (List Nat) :=
  nb1.bind fun b1 =>
  nb2.bind fun b2 =>
    if (128 ≤ b1 ∧ b1 < 192) ∧ (128 ≤ b2 ∧ b2 < 192) then
      if (b - 224) * 4096 + (b1 - 128) * 64 + (b2 - 128) < 2048 ∨
         (55296 ≤ (b - 224) * 4096 + (b1 - 128) * 64 + (b2 - 128) ∧
          (b - 224) * 4096 + (b1 - 128) * 64 + (b2 - 128) < 57344) then none
      else rec3.map (((b - 224) * 4096 + (b1 - 128) * 64 + (b2 - 128)) :: ·)
    else none

/-- Handler for a four-byte UTF-8 sequence (overlong and out-of-range
forms rejected). -/
def utf8Four (b : Nat) (nb1 nb2 nb3 : Option Nat) (rec4 : Option (List Nat)) :
    Option (List Nat) :=
  nb1.bind fun b1 =>
  nb2.bind fun b2 =>
  nb3.bind fun b3 =>
    if (128 ≤ b1 ∧ b1 < 192) ∧ (128 ≤ b2 ∧ b2 < 192) ∧
       (128 ≤ b3 ∧ b3 < 192) then
      if (b - 240) * 262144 + (b1 - 128) * 4096 + (b2 - 128) * 64 +
           (b3 - 128) < 65536 ∨
         1114112 ≤ (b - 240) * 262144 + (b1 - 128) * 4096 +
           (b2 - 128) * 64 + (b3 - 128) then none
      else rec4.map (((b - 240) * 262144 + (b1 - 128) * 4096 +
           (b2 - 128) * 64 + (b3 - 128)) :: ·)
    else none

def utf8DecodeGo : Nat → List Nat → Option (List Nat)
  | _, [] => some []
  | 0, _ :: _ => none
  | fuel + 1, b :: rest =>
      if b < 128 then (utf8DecodeGo fuel rest).map (b :: ·)
      else if b < 192 then none
      else if b < 224 then
        utf8Two b rest.head? (utf8DecodeGo fuel rest.tail)
      else if b < 240 then
        utf8Three b rest.head? rest.tail.head?
          (utf8DecodeGo fuel rest.tail.tail)
      else if b < 248 then
        utf8Four b rest.head? rest.tail.head? rest.tail.tail.head?
          (utf8DecodeGo fuel rest.tail.tail.tail)
      else none

/-- Strict UTF-8 decoding of a byte sequence, the way `decodeURIComponent`
applied to the `escape` image performs it; the fuel argument of
`utf8DecodeGo` only forces termination and is irrelevant once at least
the length of the input (`utf8DecodeGo_congr`). -/
def utf8Decode (l : List Nat) : Option (List Nat) := utf8DecodeGo l.length l

theorem utf8DecodeGo_congr (f1 : Nat) : ∀ (f2 : Nat) (l : List Nat),
    l.length ≤ f1 → l.length ≤ f2 → utf8DecodeGo f1 l = utf8DecodeGo f2 l := by
  induction f1 with
  | zero =>
      intro f2 l h1 _
      have : l = [] := List.eq_nil_of_length_eq_zero (by omega)
      subst this
      cases f2 <;> rfl
  | succ g ih =>
      intro f2 l h1 h2
      cases l with
      | nil => cases f2 <;> rfl
      | cons b rest =>
          cases f2 with
          | zero => simp at h2
          | succ h =>
              have hr : rest.length ≤ g := by simp at h1; omega
              have hr2 : rest.length ≤ h := by simp at h2; omega
              have ht : rest.tail.length ≤ rest.length := by
                simp [List.length_tail]
              have htt : rest.tail.tail.length ≤ rest.tail.length := by
                simp [List.length_tail]
              have httt : rest.tail.tail.tail.length ≤ rest.tail.tail.length := by
                simp [List.length_tail]
              rw [utf8DecodeGo]
              rw [utf8DecodeGo]
              rw [ih h rest hr hr2,
                  ih h rest.tail (by omega) (by omega),
                  ih h rest.tail.tail (by omega) (by omega),
                  ih h rest.tail.tail.tail (by omega) (by omega)]

theorem utf8EncodeChar_lt_256 (c : Nat) (hc : ValidScalar c) :
    ∀ b ∈ utf8EncodeChar c, b < 256 := by
  obtain ⟨h1, h2⟩ := hc
  unfold utf8EncodeChar
  split
  · intro b hb; simp at hb; omega
  · split
    · intro b hb; simp at hb; rcases hb with h | h <;> omega
    · split
      · intro b hb; simp at hb; rcases hb with h | h | h <;> omega
      · intro b hb; simp at hb; rcases hb with h | h | h | h <;> omega

theorem utf8Decode_encodeChar_append (c : Nat) (hc : ValidScalar c)
    (bs : List Nat) :
    utf8Decode (utf8EncodeChar c ++ bs) = (utf8Decode bs).map (c :: ·) := by
  obtain ⟨h1, h2⟩ := hc
  by_cases ha : c < 128
  · rw [utf8EncodeChar, if_pos ha, List.singleton_append]
    rw [utf8Decode, utf8Decode]
    simp only [List.length_cons]
    rw [utf8DecodeGo, if_pos ha]
  · by_cases hb : c < 2048
    · rw [utf8EncodeChar, if_neg ha, if_pos hb]
      rw [List.cons_append, List.singleton_append]
      rw [utf8Decode, utf8Decode]
      simp only [List.length_cons]
      rw [utf8DecodeGo]
      rw [if_neg (by omega), if_neg (by omega), if_pos (by omega)]
      simp only [List.head?_cons, List.tail_cons]
      rw [utf8Two]
      simp only [Option.some_bind]
      rw [if_pos (by omega), if_neg (by omega)]
      rw [utf8DecodeGo_congr (bs.length + 1) bs.length bs (by omega) (by omega)]
      have he : (192 + c / 64 - 192) * 64 + (128 + c % 64 - 128) = c := by omega
      rw [he]
    · by_cases hd : c < 65536
      · rw [utf8EncodeChar, if_neg ha, if_neg hb, if_pos hd]
        rw [List.cons_append, List.cons_append, List.singleton_append]
        rw [utf8Decode, utf8Decode]
        simp only [List.length_cons]
        rw [utf8DecodeGo]
        rw [if_neg (by omega), if_neg (by omega), if_neg (by omega),
            if_pos (by omega)]
        simp only [List.head?_cons, List.tail_cons]
        rw [utf8Three]
        simp only [Option.some_bind]
        rw [if_pos (by omega)]
        rw [if_neg (by omega)]
        rw [utf8DecodeGo_congr (bs.length + 1 + 1) bs.length bs (by omega)
              (by omega)]
        have he : (224 + c / 4096 - 224) * 4096 + (128 + c / 64 % 64 - 128) * 64 +
            (128 + c % 64 - 128) = c := by omega
        rw [he]
      · rw [utf8EncodeChar, if_neg ha, if_neg hb, if_neg hd]
        rw [List.cons_append, List.cons_append, List.cons_append,
            List.singleton_append]
        rw [utf8Decode, utf8Decode]
        simp only [List.length_cons]
        rw [utf8DecodeGo]
        rw [if_neg (by omega), if_neg (by omega), if_neg (by omega),
            if_neg (by omega), if_pos (by omega)]
        simp only [List.head?_cons, List.tail_cons]
        rw [utf8Four]
        simp only [Option.some_bind]
        rw [if_pos (by omega)]
        rw [if_neg (by omega)]
        rw [utf8DecodeGo_congr (bs.length + 1 + 1 + 1) bs.length bs (by omega)
              (by omega)]
        have he : (240 + c / 262144 - 240) * 262144 +
            (128 + c / 4096 % 64 - 128) * 4096 +
            (128 + c / 64 % 64 - 128) * 64 + (128 + c % 64 - 128) = c := by omega
        rw [he]

/-- Inversion of the UTF-8 codec on sequences of scalar values. -/
theorem utf8Decode_utf8Encode (l : List Nat) (hl : ∀ c ∈ l, ValidScalar c) :
    utf8Decode (utf8Encode l) = some l := by
  induction l with
  | nil => rfl
  | cons c rest ih =>
      rw [utf8Encode, utf8Decode_encodeChar_append c (hl c (by simp))]
      rw [ih fun x hx => hl x (by simp [hx])]
      rfl

theorem utf8Encode_lt_256 (l : List Nat) (hl : ∀ c ∈ l, ValidScalar c) :
    ∀ b ∈ utf8Encode l, b < 256 := by
  induction l with
  | nil => intro b hb; simp [utf8Encode] at hb
  | cons c rest ih =>
      intro b hb
      rw [utf8Encode] at hb
      rcases List.mem_append.mp hb with h | h
      · exact utf8EncodeChar_lt_256 c (hl c (by simp)) b h
      · exact ih (fun x hx => hl x (by simp [hx])) b h

/-- Models `toBase64`: `btoa(unescape(encodeURIComponent(String(s))))`,
that is UTF-8 encoding followed by base64. -/
def toBase64 (l : List Nat) : List Nat := b64encode (utf8Encode l)

/-- Models `fromBase64`: `decodeURIComponent(escape(atob(b)))` wrapped in
try/catch returning the empty string on failure. -/
def fromBase64 (b : List Nat) : List Nat :=
  ((b64decode b).bind utf8Decode).getD []

/-- Round trip of the text transport used for free text payloads. -/
theorem fromBase64_toBase64 (l : List Nat) (hl : ∀ c ∈ l, ValidScalar c) :
    fromBase64 (toBase64 l) = l := by
  rw [toBase64, fromBase64, b64decode_b64encode _ (utf8Encode_lt_256 l hl),
      Option.some_bind, utf8Decode_utf8Encode l hl, Option.getD_some]

/-- Drops a leading CR: used on the reversed accumulator when a LF is
hit, so that a CR immediately before the LF is consumed with it, exactly
as the separator regex `\r?\n` does. -/
def stripCR (acc : List Nat) : List Nat :=
  if acc.head? = some 13 then acc.tail else acc

/-- Models `String.prototype.split(/\r?\n/)`: the accumulator holds the
current line reversed. -/
def splitLinesAux : List Nat → List Nat → List (List Nat)
  | [], acc => [acc.reverse]
  | c :: rest, acc =>
      if c = 10 then (stripCR acc).reverse :: splitLinesAux rest []
      else splitLinesAux rest (c :: acc)

/-- Models `text.split(/\r?\n/)`. -/
def splitLines (l : List Nat) : List (List Nat) := splitLinesAux l []

/-- Models `lines.join(String.fromCharCode 10)`. -/
def joinLines : List (List Nat) → List Nat
  | [] => []
  | [l] => l
  | l :: rest => l ++ 10 :: joinLines rest

def isDigit (c : Nat) : Bool := 48 ≤ c && c ≤ 57

def digitsToNat (l : List Nat) : Nat :=
  l.foldl (fun acc c => acc * 10 + (c - 48)) 0

/-- A JavaScript number value produced by `Number` on a string: the
mathematical value of the numeric literal, or one of the two infinities.
NaN is represented as `none` at the use sites.  The value is kept as an
exact rational; the rounding of that value to the nearest IEEE double is
not modelled — rounding can never produce or remove NaN (which alone
drives the claims below), and it changes zero-ness or finiteness only
through under- or overflow at magnitudes around 1e-324 and 1e308, far
outside this file format's rating values. -/
inductive JsNum where
  | num (q : ℚ)
  | posInf
  | negInf
deriving DecidableEq, Repr

/-- The exponent part of a string numeric literal: an optional sign
followed by one or more decimal digits (after the e or E marker). -/
def parseExpPart (t : List Nat) : Option Int :=
  match t with
  | [] => none
  | c :: r =>
      if c = 43 then
        if r ≠ [] ∧ r.all isDigit then some (digitsToNat r : Int) else none
      else if c = 45 then
        if r ≠ [] ∧ r.all isDigit then some (-(digitsToNat r : Int)) else none
      else if (c :: r).all isDigit then some (digitsToNat (c :: r) : Int)
      else none

/-- The unsigned decimal numeric literal grammar of `Number`:
`Digits [. [Digits]] [e Sign Digits]` or `. Digits [e Sign Digits]`,
with the exact rational value. -/
def parseUnsignedDec (t : List Nat) : Option ℚ :=
  let ip := t.takeWhile isDigit
  match t.drop ip.length with
  | [] => if ip ≠ [] then some (digitsToNat ip : ℚ) else none
  | c :: r2 =>
      if c = 46 then
        let fp := r2.takeWhile isDigit
        if ip = [] ∧ fp = [] then none
        else
          let mant : ℚ :=
            (digitsToNat ip : ℚ) + (digitsToNat fp : ℚ) / (10 : ℚ) ^ fp.length
          match r2.drop fp.length with
          | [] => some mant
          | e :: r4 =>
              if e = 101 ∨ e = 69 then
                match parseExpPart r4 with
                | some ex => some (mant * (10 : ℚ) ^ ex)
                | none => none
              else none
      else if c = 101 ∨ c = 69 then
        if ip = [] then none
        else
          match parseExpPart r2 with
          | some ex => some ((digitsToNat ip : ℚ) * (10 : ℚ) ^ ex)
          | none => none
      else none

/-- The code points of the literal `Infinity`. -/
def kInfinity : List Nat := [73, 110, 102, 105, 110, 105, 116, 121]

/-- An unsigned decimal literal or `Infinity`, with the sign applied. -/
def decUnsigned (t : List Nat) (neg : Bool) : Option JsNum :=
  if t = kInfinity then some (if neg then JsNum.negInf else JsNum.posInf)
  else
    match parseUnsignedDec t with
    | some q => some (JsNum.num (if neg then -q else q))
    | none => none

/-- A decimal literal with an optional leading sign. -/
def decSigned (t : List Nat) : Option JsNum :=
  match t with
  | 43 :: r => decUnsigned r false
  | 45 :: r => decUnsigned r true
  | _ => decUnsigned t false

/-- Value of one digit in the given radix (decimal digits and both
letter cases for hexadecimal). -/
def digitValIn (radix c : Nat) : Option Nat :=
  if 48 ≤ c ∧ c ≤ 57 ∧ c - 48 < radix then some (c - 48)
  else if 97 ≤ c ∧ c ≤ 102 ∧ c - 87 < radix then some (c - 87)
  else if 65 ≤ c ∧ c ≤ 70 ∧ c - 55 < radix then some (c - 55)
  else none

/-- Value of a digit string in the given radix; `none` on any invalid
digit. -/
def radixNat (radix : Nat) (l : List Nat) : Option Nat :=
  l.foldl
    (fun acc c =>
      match acc, digitValIn radix c with
      | some a, some d => some (a * radix + d)
      | _, _ => none)
    (some 0)

/-- Models ECMAScript `Number` applied to a string (StringToNumber):
strip the whitespace class, map the empty remainder to `0`, otherwise
parse the whole remainder as a signed decimal literal (with optional
fraction and exponent), a signed `Infinity`, or an unsigned `0x`/`0o`/
`0b` integer literal; everything else is NaN, returned as `none`.  The
value kept is the exact mathematical value of the literal (see
`JsNum`). -/
def jsStringToNumber (s : List Nat) : Option JsNum :=
  let t := trimJs s
  if t = [] then some (JsNum.num 0)
  else
    match t with
    | 48 :: c :: rest =>
        if c = 120 ∨ c = 88 then
          if rest ≠ [] then (radixNat 16 rest).map (fun n => JsNum.num n)
          else none
        else if c = 111 ∨ c = 79 then
          if rest ≠ [] then (radixNat 8 rest).map (fun n => JsNum.num n)
          else none
        else if c = 98 ∨ c = 66 then
          if rest ≠ [] then (radixNat 2 rest).map (fun n => JsNum.num n)
          else none
        else decSigned t
    | _ => decSigned t

/-- Models the idiom `Number(val) || null`: NaN, 0 and -0 are falsy, so
all of them collapse to the `null` sentinel (`none`); every other number,
including the infinities, is kept. -/
def jsNumberOrNull (v : List Nat) : Option JsNum :=
  match jsStringToNumber v with
  | none => none
  | some (JsNum.num q) => if q = 0 then none else some (JsNum.num q)
  | some JsNum.posInf => some JsNum.posInf
  | some JsNum.negInf => some JsNum.negInf

/-- Models the unquoting step of `parseContentVars`: a value that both
starts and ends with a double quote (code 34) or both starts and ends
with a single quote (code 39) is stripped via `slice(1,-1)`. -/
def unquote (v : List Nat) : List Nat :=
  if (v.head? = some 34 ∧ v.getLast? = some 34) ∨
     (v.head? = some 39 ∧ v.getLast? = some 39) then
    (v.drop 1).dropLast
  else v

/-- Per-writer reaction flags for one target record, one flag per emoji
this application knows (thumbs up, check mark, heart). -/
structure RFlags where
  thumbs : Bool
  check : Bool
  heart : Bool
deriving DecidableEq, Repr

/-- Embedded reaction sub-document of a status record. -/
structure ReactionState where
  updated_at : Option (List Nat)
  by_target : List (List Nat × RFlags)
deriving DecidableEq, Repr

/-- The default reaction state `{ updated_at: null, by_target: {} }`. -/
def emptyReactionState : ReactionState := ⟨none, []⟩

/-- JSON values of the shapes this application serializes (numbers and
arrays never appear in the reactions payload and are not modelled). -/
inductive JVal where
  | jnull : JVal
  | jbool : Bool → JVal
  | jstr : List Nat → JVal
  | jobj : List (List Nat × JVal) → JVal

def jsonSkipWs (l : List Nat) : List Nat :=
  l.dropWhile (fun c => c = 32 || c = 9 || c = 10 || c = 13)

def hexVal (c : Nat) : Option Nat :=
  if 48 ≤ c ∧ c ≤ 57 then some (c - 48)
  else if 97 ≤ c ∧ c ≤ 102 then some (c - 87)
  else if 65 ≤ c ∧ c ≤ 70 then some (c - 55)
  else none

/-- Scans a JSON string body after its opening quote; returns the decoded
content and the remaining input past the closing quote. -/
def jsonStrGo : Nat → List Nat → Option (List Nat × List Nat)
  | 0, _ => none
  | _ + 1, [] => none
  | fuel + 1, c :: rest =>
      if c = 34 then some ([], rest)
      else if c = 92 then
        match rest.head? with
        | none => none
        | some e =>
            if e = 117 then
              match hexVal (rest.tail.headD 0), hexVal (rest.tail.tail.headD 0),
                    hexVal (rest.tail.tail.tail.headD 0),
                    hexVal (rest.tail.tail.tail.tail.headD 0) with
              | some h1, some h2, some h3, some h4 =>
                  if rest.tail.length < 4 then none
                  else
                    (jsonStrGo fuel (rest.tail.drop 4)).map fun p =>
                      ((h1 * 4096 + h2 * 256 + h3 * 16 + h4) :: p.1, p.2)
              | _, _, _, _ => none
            else
              let d := if e = 110 then some 10 else if e = 116 then some 9
                       else if e = 114 then some 13 else if e = 98 then some 8
                       else if e = 102 then some 12 else if e = 34 then some 34
                       else if e = 92 then some 92 else if e = 47 then some 47
                       else none
              match d with
              | none => none
              | some ch =>
                  (jsonStrGo fuel rest.tail).map fun p => (ch :: p.1, p.2)
      else (jsonStrGo fuel rest).map fun p => (c :: p.1, p.2)

mutual

/-- Parses one JSON value (restricted to the shapes this application
serializes); the fuel argument only forces termination and is ample at
the top-level call. -/
def jsonValGo : Nat → List Nat → Option (JVal × List Nat)
  | 0, _ => none
  | fuel + 1, l0 =>
      let l := jsonSkipWs l0
      match l.head? with
      | none => none
      | some c =>
          if c = 110 then
            if l.tail.take 3 = [117, 108, 108] then some (.jnull, l.tail.drop 3)
            else none
          else if c = 116 then
            if l.tail.take 3 = [114, 117, 101] then
              some (.jbool true, l.tail.drop 3)
            else none
          else if c = 102 then
            if l.tail.take 4 = [97, 108, 115, 101] then
              some (.jbool false, l.tail.drop 4)
            else none
          else if c = 34 then
            (jsonStrGo fuel l.tail).map fun p => (.jstr p.1, p.2)
          else if c = 123 then
            if (jsonSkipWs l.tail).head? = some 125 then
              some (.jobj [], (jsonSkipWs l.tail).tail)
            else (jsonMembersGo fuel l.tail).map fun p => (.jobj p.1, p.2)
          else none

/-- Parses the members of a JSON object up to and including the closing
brace. -/
def jsonMembersGo : Nat → List Nat →
    Option (List (List Nat × JVal) × List Nat)
  | 0, _ => none
  | fuel + 1, l0 =>
      let l := jsonSkipWs l0
      if l.head? = some 34 then
        (jsonStrGo fuel l.tail).bind fun pk =>
          let r2 := jsonSkipWs pk.2
          if r2.head? = some 58 then
            (jsonValGo fuel r2.tail).bind fun pv =>
              let r4 := jsonSkipWs pv.2
              if r4.head? = some 44 then
                (jsonMembersGo fuel r4.tail).map fun p =>
                  ((pk.1, pv.1) :: p.1, p.2)
              else if r4.head? = some 125 then some ([(pk.1, pv.1)], r4.tail)
              else none
          else none
      else none

end

/-- Models `JSON.parse` on the payloads this application serializes;
`none` models a thrown `SyntaxError`. -/
def jsonParse (l : List Nat) : Option JVal :=
  (jsonValGo (l.length + 1) l).bind fun p =>
    if jsonSkipWs p.2 = [] then some p.1 else none

/-- JavaScript truthiness of a parsed JSON value. -/
def truthy : JVal → Bool
  | .jnull => false
  | .jbool b => b
  | .jstr s => !s.isEmpty
  | .jobj _ => true

/-- Object member access: `JSON.parse` keeps the last duplicate key, so
lookup scans from the end. -/
def jlookup (fields : List (List Nat × JVal)) (k : List Nat) : Option JVal :=
  (fields.reverse.find? (fun p => p.1 == k)).map (·.2)

def kThumbEmoji : List Nat := [128077]
def kCheckEmoji : List Nat := [9989]
def kHeartEmoji : List Nat := [10084, 65039]
def kUpdatedAtField : List Nat := [117, 112, 100, 97, 116, 101, 100, 95, 97, 116]
def kByTargetField : List Nat := [98, 121, 95, 116, 97, 114, 103, 101, 116]

/-- Truthiness of the per-emoji flag read `flags[emoji]` (an absent
property is `undefined`, hence falsy). -/
def flagsOfJson : JVal → RFlags
  | .jobj fs =>
      { thumbs := ((jlookup fs kThumbEmoji).map truthy).getD false
        check := ((jlookup fs kCheckEmoji).map truthy).getD false
        heart := ((jlookup fs kHeartEmoji).map truthy).getD false }
  | _ => ⟨false, false, false⟩

/-- Reads the `by_target` member: only object members contribute flags
that the aggregator can observe; anything else behaves as empty. -/
def byTargetOfJson : JVal → List (List Nat × RFlags)
  | .jobj fs => fs.map (fun p => (p.1, flagsOfJson p.2))
  | _ => []

/-- Interprets a parsed JSON value as a reaction state, modelling the
check `obj && typeof obj === 'object'` (null and primitives fail it) and
the follow-up default `by_target = {}`. -/
def reactionsOfJson : JVal → Option ReactionState
  | .jobj fs =>
      some { updated_at :=
               match jlookup fs kUpdatedAtField with
               | some (.jstr s) => some s
               | _ => none
             by_target :=
               match jlookup fs kByTargetField with
               | some w => byTargetOfJson w
               | none => [] }
  | _ => none

/-- Models the `REACTIONS_B64` branch of `parseContentVars`:
`JSON.parse(fromBase64(val) || braces)` guarded by try/catch and the
object check. -/
def decodeReactionsB64 (val : List Nat) : Option ReactionState :=
  (jsonParse (if fromBase64 val = [] then [123, 125] else fromBase64 val)).bind
    reactionsOfJson

def kTEAM : List Nat := [84, 69, 65, 77]
def kNAME : List Nat := [78, 65, 77, 69]
def kSESSION : List Nat := [83, 69, 83, 83, 73, 79, 78]
def kFEELING : List Nat := [70, 69, 69, 76, 73, 78, 71]
def kPRODUCTIVITY : List Nat :=
  [80, 82, 79, 68, 85, 67, 84, 73, 86, 73, 84, 89]
def kUPDATED_AT : List Nat := [85, 80, 68, 65, 84, 69, 68, 95, 65, 84]
def kUPDATE_B64 : List Nat := [85, 80, 68, 65, 84, 69, 95, 66, 54, 52]
def kUPDATE : List Nat := [85, 80, 68, 65, 84, 69]
def kREACTIONS_B64 : List Nat :=
  [82, 69, 65, 67, 84, 73, 79, 78, 83, 95, 66, 54, 52]

/-- The record produced by `parseContentVars`, with the initial field
values of its `out` object; `reactions` stays `none` until a reactions
line assigns it or the trailing default kicks in. -/
structure ParsedRecord where
  team : List Nat
  name : List Nat
  session : List Nat
  feeling : Option JsNum
  productivity : Option JsNum
  update : List Nat
  updated_at : List Nat
  reactions : Option ReactionState

def initParsed : ParsedRecord := ⟨[], [], [], none, none, [], [], none⟩

/-- The keyed assignment inside the parse loop of `parseContentVars`. -/
def applyKey (out : ParsedRecord) (key val : List Nat) : ParsedRecord :=
  if key = kTEAM then { out with team := val }
  else if key = kNAME then { out with name := val }
  else if key = kSESSION then { out with session := val }
  else if key = kFEELING then { out with feeling := jsNumberOrNull val }
  else if key = kPRODUCTIVITY then
    { out with productivity := jsNumberOrNull val }
  else if key = kUPDATED_AT then { out with updated_at := val }
  else if key = kUPDATE_B64 then { out with update := fromBase64 val }
  else if key = kUPDATE then { out with update := val }
  else if key = kREACTIONS_B64 then
    match decodeReactionsB64 val with
    | some r => { out with reactions := some r }
    | none => out
  else out

/-- Extraction step of the parse loop: trim the line, skip blank and
comment lines and lines without `=`, split at the first `=`, uppercase
and trim the key, trim and unquote the value. -/
def lineKeyVal (raw : List Nat) : Option (List Nat × List Nat) :=
  let line := trimJs raw
  if line = [] then none
  else if line.head? = some 35 then none
  else
    match line.findIdx? (fun c => c = 61) with
    | none => none
    | some eq =>
        some (toUpperAscii (trimJs (line.take eq)),
              unquote (trimJs (line.drop (eq + 1))))

/-- One iteration of the parse loop: extract the key and value, then
dispatch; a skipped line leaves the record unchanged. -/
def processLine (out : ParsedRecord) (raw : List Nat) : ParsedRecord :=
  match lineKeyVal raw with
  | none => out
  | some kv => applyKey out kv.1 kv.2

def parseLines (lines : List (List Nat)) : ParsedRecord :=
  lines.foldl processLine initParsed

/-- The trailing fix-ups of `parseContentVars`: a missing reactions
sub-document becomes the empty sentinel (a missing `by_target` is already
normalised to the empty map by `reactionsOfJson`). -/
def finalizeParsed (out : ParsedRecord) : ParsedRecord :=
  match out.reactions with
  | none => { out with reactions := some emptyReactionState }
  | some _ => out

/-- Models `parseContentVars`. -/
def parseContentVars (text : List Nat) : ParsedRecord :=
  finalizeParsed (parseLines (splitLines text))

/-- Decimal digits, fuel-driven so that the definition reduces; the fuel
is ample whenever it is at least the number divided by ten. -/
def natToDigitsGo : Nat → Nat → List Nat
  | 0, n => [48 + n % 10]
  | fuel + 1, n =>
      if n < 10 then [48 + n]
      else natToDigitsGo fuel (n / 10) ++ [48 + n % 10]

/-- Decimal digit string of a natural number (the template interpolation
of `Number(feeling)`). -/
def natToDigits (n : Nat) : List Nat := natToDigitsGo n n

/-- Input of `buildContentVars`: the fields of the saved status record. -/
structure StatusInput where
  team : List Nat
  name : List Nat
  session : List Nat
  feeling : Nat
  productivity : Nat
  update : List Nat
  timestamp : List Nat

/-- Wraps a value in double quotes. -/
def quoteWrap (v : List Nat) : List Nat := 34 :: (v ++ [34])

/-- Models `buildContentVars`: the seven `KEY=value` lines joined with
newlines plus a trailing newline.  Note that the reaction sub-document is
not among them. -/
def buildContentVars (r : StatusInput) : List Nat :=
  joinLines [
    kTEAM ++ 61 :: quoteWrap r.team,
    kNAME ++ 61 :: quoteWrap r.name,
    kSESSION ++ 61 :: quoteWrap r.session,
    kFEELING ++ 61 :: natToDigits r.feeling,
    kPRODUCTIVITY ++ 61 :: natToDigits r.productivity,
    kUPDATED_AT ++ 61 :: quoteWrap r.timestamp,
    kUPDATE_B64 ++ 61 :: quoteWrap (toBase64 r.update)
  ] ++ [10]

theorem dropWhile_eq_self_of_head (l : List Nat)
    (h : ∀ c, l.head? = some c → isJsWs c = false) :
    l.dropWhile isJsWs = l := by
  cases l with
  | nil => rfl
  | cons a t => simp [List.dropWhile_cons, h a rfl]

theorem trimJs_eq_self (l : List Nat)
    (h1 : ∀ c, l.head? = some c → isJsWs c = false)
    (h2 : ∀ c, l.getLast? = some c → isJsWs c = false) :
    trimJs l = l := by
  unfold trimJs
  rw [dropWhile_eq_self_of_head l h1]
  rw [dropWhile_eq_self_of_head l.reverse (by
    intro c hc
    exact h2 c (by rwa [List.head?_reverse] at hc))]
  exact List.reverse_reverse l

theorem splitLinesAux_append (l : List Nat) : ∀ acc rest : List Nat,
    10 ∉ l → stripCR (l.reverse ++ acc) = l.reverse ++ acc →
    splitLinesAux (l ++ 10 :: rest) acc =
      (acc.reverse ++ l) :: splitLinesAux rest [] := by
  induction l with
  | nil =>
      intro acc rest _ hstrip
      rw [List.nil_append, splitLinesAux, if_pos rfl]
      rw [show stripCR acc = acc from by simpa using hstrip]
      simp
  | cons c l2 ih =>
      intro acc rest h10 hstrip
      have hc10 : c ≠ 10 := fun h => h10 (by simp [h])
      rw [List.cons_append, splitLinesAux, if_neg hc10]
      rw [ih (c :: acc) rest (fun h => h10 (by simp [h])) (by
        have h2 : l2.reverse ++ c :: acc = (c :: l2).reverse ++ acc := by simp
        rw [h2]
        exact hstrip)]
      simp

theorem joinLines_cons_append (l : List Nat) (ls : List (List Nat))
    (h : ls ≠ []) :
    joinLines (l :: ls) ++ [10] = l ++ 10 :: (joinLines ls ++ [10]) := by
  cases ls with
  | nil => exact absurd rfl h
  | cons m ms =>
      rw [show joinLines (l :: m :: ms) = l ++ 10 :: joinLines (m :: ms)
            from rfl]
      simp

theorem findIdx61_go (kp v : List Nat) (h : ∀ c ∈ kp, c ≠ 61) :
    ∀ i, List.findIdx? (fun c => c = 61) (kp ++ 61 :: v) i =
      some (kp.length + i) := by
  induction kp with
  | nil => intro i; simp [List.findIdx?_cons]
  | cons c kp2 ih =>
      intro i
      have hc : c ≠ 61 := h c (by simp)
      rw [List.cons_append, List.findIdx?_cons]
      rw [if_neg (by simp [hc])]
      rw [ih (fun x hx => h x (by simp [hx])) (i + 1)]
      simp only [Option.some.injEq, List.length_cons]
      omega

theorem findIdx61_append (kp v : List Nat) (h : ∀ c ∈ kp, c ≠ 61) :
    (kp ++ 61 :: v).findIdx? (fun c => c = 61) = some kp.length := by
  have := findIdx61_go kp v h 0
  simpa using this

theorem drop_key_val (kp v : List Nat) :
    (kp ++ 61 :: v).drop (kp.length + 1) = v := by
  have : kp ++ 61 :: v = (kp ++ [61]) ++ v := by simp
  rw [this, show kp.length + 1 = (kp ++ [61]).length by simp]
  exact List.drop_left _ _

/-- Processing a line of the quoted shape `KEY="value"` built by
`buildContentVars` dispatches the raw value to `applyKey`. -/
theorem processLine_quoted (out : ParsedRecord) (kp t : List Nat)
    (hne : kp ≠ [])
    (h61 : ∀ c ∈ kp, c ≠ 61)
    (hhead : ∀ c, kp.head? = some c → isJsWs c = false ∧ c ≠ 35)
    (hlast : ∀ c, kp.getLast? = some c → isJsWs c = false)
    (hupper : toUpperAscii kp = kp) :
    processLine out (kp ++ 61 :: quoteWrap t) = applyKey out kp t := by
  have hline : kp ++ 61 :: quoteWrap t = (kp ++ 61 :: 34 :: t) ++ [34] := by
    simp [quoteWrap]
  have hhead2 : ∀ c, (kp ++ 61 :: quoteWrap t).head? = some c →
      isJsWs c = false := by
    cases kp with
    | nil => exact absurd rfl hne
    | cons a kp2 =>
        intro c hc
        simp only [List.cons_append, List.head?_cons, Option.some.injEq] at hc
        subst hc
        exact (hhead a rfl).1
  have hlast2 : ∀ c, (kp ++ 61 :: quoteWrap t).getLast? = some c →
      isJsWs c = false := by
    intro c hc
    rw [hline, List.getLast?_concat] at hc
    cases hc
    rfl
  have htrim : trimJs (kp ++ 61 :: quoteWrap t) = kp ++ 61 :: quoteWrap t :=
    trimJs_eq_self _ hhead2 hlast2
  rw [processLine, lineKeyVal]
  simp only [htrim]
  rw [if_neg (by cases kp with
    | nil => exact absurd rfl hne
    | cons a kp2 => simp)]
  rw [if_neg (by cases kp with
    | nil => exact absurd rfl hne
    | cons a kp2 =>
        simp only [List.cons_append, List.head?_cons, Option.some.injEq]
        exact (hhead a rfl).2)]
  rw [findIdx61_append kp _ h61]
  simp only
  rw [List.take_left, drop_key_val]
  have htrimk : trimJs kp = kp := by
    apply trimJs_eq_self
    · intro c hc; exact (hhead c hc).1
    · exact hlast
  have htrimv : trimJs (quoteWrap t) = quoteWrap t := by
    apply trimJs_eq_self
    · intro c hc
      simp only [quoteWrap, List.head?_cons, Option.some.injEq] at hc
      subst hc; rfl
    · intro c hc
      have : quoteWrap t = (34 :: t) ++ [34] := by simp [quoteWrap]
      rw [this, List.getLast?_concat] at hc
      cases hc
      rfl
  have hunq : unquote (quoteWrap t) = t := by
    rw [unquote, if_pos]
    · simp [quoteWrap]
    · constructor
      constructor
      · rfl
      · rw [show quoteWrap t = (34 :: t) ++ [34] by simp [quoteWrap],
            List.getLast?_concat]
  rw [htrimk, htrimv, hupper, hunq]

/-- Variant of `processLine_quoted` whose side conditions are decidable,
for instantiation at the concrete keys. -/
theorem processLine_quoted2 (out : ParsedRecord) (kp t : List Nat)
    (hne : kp ≠ [])
    (h61 : ∀ c ∈ kp, c ≠ 61)
    (hh : isJsWs (kp.headD 0) = false)
    (hh35 : kp.headD 0 ≠ 35)
    (hl : isJsWs (kp.getLastD 0) = false)
    (hupper : toUpperAscii kp = kp) :
    processLine out (kp ++ 61 :: quoteWrap t) = applyKey out kp t := by
  apply processLine_quoted out kp t hne h61
  · intro c hc
    cases kp with
    | nil => simp at hc
    | cons a kp2 =>
        simp only [List.head?_cons, Option.some.injEq] at hc
        subst hc
        refine ⟨by simpa using hh, by simpa using hh35⟩
  · intro c hc
    have h2 : kp.getLastD 0 = c := by
      rw [List.getLastD_eq_getLast?, hc]
      rfl
    rw [← h2]
    exact hl
  · exact hupper

theorem processLine_TEAM (out : ParsedRecord) (t : List Nat) :
    processLine out (kTEAM ++ 61 :: quoteWrap t) = { out with team := t } := by
  rw [processLine_quoted2 out kTEAM t (by decide) (by decide) (by decide)
        (by decide) (by decide) (by decide)]
  rfl

theorem processLine_NAME (out : ParsedRecord) (t : List Nat) :
    processLine out (kNAME ++ 61 :: quoteWrap t) = { out with name := t } := by
  rw [processLine_quoted2 out kNAME t (by decide) (by decide) (by decide)
        (by decide) (by decide) (by decide)]
  rfl

theorem processLine_SESSION (out : ParsedRecord) (t : List Nat) :
    processLine out (kSESSION ++ 61 :: quoteWrap t) =
      { out with session := t } := by
  rw [processLine_quoted2 out kSESSION t (by decide) (by decide) (by decide)
        (by decide) (by decide) (by decide)]
  rfl

theorem processLine_UPDATED_AT (out : ParsedRecord) (t : List Nat) :
    processLine out (kUPDATED_AT ++ 61 :: quoteWrap t) =
      { out with updated_at := t } := by
  rw [processLine_quoted2 out kUPDATED_AT t (by decide) (by decide) (by decide)
        (by decide) (by decide) (by decide)]
  rfl

theorem processLine_UPDATE_B64 (out : ParsedRecord) (t : List Nat) :
    processLine out (kUPDATE_B64 ++ 61 :: quoteWrap t) =
      { out with update := fromBase64 t } := by
  rw [processLine_quoted2 out kUPDATE_B64 t (by decide) (by decide) (by decide)
        (by decide) (by decide) (by decide)]
  rfl

theorem processLine_FEELING (out : ParsedRecord) (n : Nat)
    (h1 : 1 ≤ n) (h2 : n ≤ 10) :
    processLine out (kFEELING ++ 61 :: natToDigits n) =
      { out with feeling := some (JsNum.num (n : ℚ)) } := by
  interval_cases n <;> rfl

theorem processLine_PRODUCTIVITY (out : ParsedRecord) (n : Nat)
    (h1 : 1 ≤ n) (h2 : n ≤ 10) :
    processLine out (kPRODUCTIVITY ++ 61 :: natToDigits n) =
      { out with productivity := some (JsNum.num (n : ℚ)) } := by
  interval_cases n <;> rfl

theorem processLine_nil (out : ParsedRecord) : processLine out [] = out := rfl

theorem natToDigitsGo_mem (fuel : Nat) :
    ∀ n, ∀ c ∈ natToDigitsGo fuel n, 48 ≤ c ∧ c ≤ 57 := by
  induction fuel with
  | zero => intro n c hc; simp [natToDigitsGo] at hc; omega
  | succ f ih =>
      intro n c hc
      rw [natToDigitsGo] at hc
      split at hc
      · simp at hc; omega
      · rcases List.mem_append.mp hc with h | h
        · exact ih _ c h
        · simp at h; omega

theorem natToDigits_mem (n : Nat) : ∀ c ∈ natToDigits n, 48 ≤ c ∧ c ≤ 57 :=
  natToDigitsGo_mem n n

theorem natToDigitsGo_ne_nil (fuel n : Nat) : natToDigitsGo fuel n ≠ [] := by
  cases fuel with
  | zero => simp [natToDigitsGo]
  | succ f => rw [natToDigitsGo]; split <;> simp

theorem natToDigits_ne_nil (n : Nat) : natToDigits n ≠ [] :=
  natToDigitsGo_ne_nil n n

theorem sextetChar_ge_43 (s : Nat) : 43 ≤ sextetChar s := by
  unfold sextetChar
  split <;> try omega
  split <;> try omega
  split <;> try omega
  split <;> omega

theorem b64encode_ge_43 (l : List Nat) : ∀ c ∈ b64encode l, 43 ≤ c := by
  induction l using b64encode.induct with
  | case1 => intro c hc; simp [b64encode] at hc
  | case2 a =>
      intro c hc
      rw [b64encode] at hc
      simp at hc
      rcases hc with h | h | h | h <;>
        first
          | (subst h; exact sextetChar_ge_43 _)
          | omega
  | case3 a b =>
      intro c hc
      rw [b64encode] at hc
      simp at hc
      rcases hc with h | h | h | h <;>
        first
          | (subst h; exact sextetChar_ge_43 _)
          | omega
  | case4 a b cc rest ih =>
      intro c hc
      rw [b64encode] at hc
      simp at hc
      rcases hc with h | h | h | h | h <;>
        first
          | (subst h; exact sextetChar_ge_43 _)
          | exact ih c h
          | omega

/-- Lines of the quoted shape end in a double quote. -/
theorem getLast?_quoted (kp t : List Nat) :
    (kp ++ 61 :: quoteWrap t).getLast? = some 34 := by
  rw [show kp ++ 61 :: quoteWrap t = (kp ++ 61 :: 34 :: t) ++ [34] by
        simp [quoteWrap]]
  exact List.getLast?_concat _

/-- Lines of the digit shape end in a decimal digit, never in CR. -/
theorem getLast?_digit_ne_13 (kp : List Nat) (n : Nat) :
    (kp ++ 61 :: natToDigits n).getLast? ≠ some 13 := by
  intro h
  rw [List.getLast?_append] at h
  have h1 : (61 :: natToDigits n).getLast? = (natToDigits n).getLast? := by
    cases hd : natToDigits n with
    | nil => exact absurd hd (natToDigits_ne_nil n)
    | cons d ds => exact List.getLast?_cons_cons
  rw [h1] at h
  cases hd : (natToDigits n).getLast? with
  | none => exact natToDigits_ne_nil n (List.getLast?_eq_none_iff.mp hd)
  | some x =>
      rw [hd] at h
      simp [Option.or] at h
      subst h
      have h3 := natToDigits_mem n 13 (List.mem_of_mem_getLast? hd)
      omega

/-- Splitting a newline-terminated line off the front of a text. -/
theorem splitLines_append (l rest : List Nat) (h10 : 10 ∉ l)
    (h13 : l.getLast? ≠ some 13) :
    splitLines (l ++ 10 :: rest) = l :: splitLines rest := by
  rw [splitLines, splitLinesAux_append l [] rest h10 (by
    rw [List.append_nil, stripCR,
        if_neg (by rw [List.head?_reverse]; exact h13)])]
  simp [splitLines]

theorem joinLines_singleton (l : List Nat) : joinLines [l] = l := rfl

theorem splitLines_nil : splitLines [] = [[]] := by
  rw [splitLines, splitLinesAux]
  rfl

theorem no10_quoted (kp t : List Nat) (hkp : (10 : Nat) ∉ kp)
    (ht : (10 : Nat) ∉ t) : (10 : Nat) ∉ kp ++ 61 :: quoteWrap t := by
  intro hmem
  rcases List.mem_append.mp hmem with h | h
  · exact hkp h
  · rcases List.mem_cons.mp h with h | h
    · exact absurd h (by decide)
    · rcases List.mem_cons.mp h with h | h
      · exact absurd h (by decide)
      · rcases List.mem_append.mp h with h | h
        · exact ht h
        · simp at h

theorem ne13_quoted (kp t : List Nat) :
    (kp ++ 61 :: quoteWrap t).getLast? ≠ some 13 := by
  rw [getLast?_quoted]
  simp

theorem no10_digit (kp : List Nat) (n : Nat) (hkp : (10 : Nat) ∉ kp) :
    (10 : Nat) ∉ kp ++ 61 :: natToDigits n := by
  intro hmem
  rcases List.mem_append.mp hmem with h | h
  · exact hkp h
  · rcases List.mem_cons.mp h with h | h
    · exact absurd h (by decide)
    · have := natToDigits_mem n 10 h
      omega

/-- C1, amended round trip: for a record whose ratings lie in 1..10 and
whose team, name, session and timestamp contain no newline, decoding the
encoded record reproduces team, name, session, timestamp, both ratings,
and the free text (losslessly, for arbitrary text including quotes,
delimiters and newlines); the embedded reaction state is not serialized
by `buildContentVars`, so it always decodes to the empty sentinel. -/
theorem parse_build_statusRecord (r : StatusInput)
    (hf1 : 1 ≤ r.feeling) (hf2 : r.feeling ≤ 10)
    (hp1 : 1 ≤ r.productivity) (hp2 : r.productivity ≤ 10)
    (hteam : (10 : Nat) ∉ r.team) (hname : (10 : Nat) ∉ r.name)
    (hsession : (10 : Nat) ∉ r.session) (hts : (10 : Nat) ∉ r.timestamp)
    (hup : ∀ c ∈ r.update, ValidScalar c) :
    parseContentVars (buildContentVars r) =
      { team := r.team, name := r.name, session := r.session,
        feeling := some (JsNum.num (r.feeling : ℚ)),
        productivity := some (JsNum.num (r.productivity : ℚ)),
        update := r.update, updated_at := r.timestamp,
        reactions := some emptyReactionState } := by
  obtain ⟨tm, nm, ss, fe, pr, up, ts⟩ := r
  dsimp only at hf1 hf2 hp1 hp2 hteam hname hsession hts hup ⊢
  have hb64 : (10 : Nat) ∉ toBase64 up := by
    intro h
    rw [toBase64] at h
    have := b64encode_ge_43 (utf8Encode up) 10 h
    omega
  rw [buildContentVars]
  dsimp only
  rw [joinLines_cons_append _ _ (by simp), joinLines_cons_append _ _ (by simp),
      joinLines_cons_append _ _ (by simp), joinLines_cons_append _ _ (by simp),
      joinLines_cons_append _ _ (by simp), joinLines_cons_append _ _ (by simp),
      joinLines_singleton]
  rw [parseContentVars]
  rw [splitLines_append _ _ (no10_quoted _ _ (by decide) hteam)
        (ne13_quoted _ _),
      splitLines_append _ _ (no10_quoted _ _ (by decide) hname)
        (ne13_quoted _ _),
      splitLines_append _ _ (no10_quoted _ _ (by decide) hsession)
        (ne13_quoted _ _),
      splitLines_append _ _ (no10_digit _ _ (by decide))
        (getLast?_digit_ne_13 _ _),
      splitLines_append _ _ (no10_digit _ _ (by decide))
        (getLast?_digit_ne_13 _ _),
      splitLines_append _ _ (no10_quoted _ _ (by decide) hts)
        (ne13_quoted _ _),
      splitLines_append _ _ (no10_quoted _ _ (by decide) hb64)
        (ne13_quoted _ _),
      splitLines_nil]
  rw [parseLines]
  simp only [List.foldl_cons, List.foldl_nil]
  rw [processLine_TEAM, processLine_NAME, processLine_SESSION,
      processLine_FEELING _ _ hf1 hf2, processLine_PRODUCTIVITY _ _ hp1 hp2,
      processLine_UPDATED_AT, processLine_UPDATE_B64, processLine_nil]
  rw [fromBase64_toBase64 up hup]
  rfl

theorem jsNumberOrNull_ne_some_zero (v : List Nat) :
    jsNumberOrNull v ≠ some (JsNum.num 0) := by
  rw [jsNumberOrNull]
  cases jsStringToNumber v with
  | none => simp
  | some j =>
      cases j with
      | num q =>
          simp only
          split
          next => simp
          next hq => simp [hq]
      | posInf => simp
      | negInf => simp

/-- Field characterization of the keyed assignment: each projection

changes only under its own key. -/
theorem applyKey_fields (out : ParsedRecord) (k v : List Nat) :
    ((applyKey out k v).feeling =
        if k = kFEELING then jsNumberOrNull v else out.feeling) ∧
    ((applyKey out k v).productivity =
        if k = kPRODUCTIVITY then jsNumberOrNull v else out.productivity) := by
  rw [applyKey]
  repeat' split
  all_goals simp_all [kTEAM, kNAME, kSESSION, kFEELING, kPRODUCTIVITY,
    kUPDATED_AT, kUPDATE_B64, kUPDATE, kREACTIONS_B64]

theorem processLine_feeling_preserve (out : ParsedRecord) (raw : List Nat)
    (h : (lineKeyVal raw).map Prod.fst ≠ some kFEELING) :
    (processLine out raw).feeling = out.feeling := by
  rw [processLine]
  cases hkv : lineKeyVal raw with
  | none => rfl
  | some kv =>
      simp only
      rw [(applyKey_fields out kv.1 kv.2).1, if_neg]
      intro hk
      apply h
      rw [hkv]
      simp [hk]

theorem processLine_productivity_preserve (out : ParsedRecord)
    (raw : List Nat)
    (h : (lineKeyVal raw).map Prod.fst ≠ some kPRODUCTIVITY) :
    (processLine out raw).productivity = out.productivity := by
  rw [processLine]
  cases hkv : lineKeyVal raw with
  | none => rfl
  | some kv =>
      simp only
      rw [(applyKey_fields out kv.1 kv.2).2, if_neg]
      intro hk
      apply h
      rw [hkv]
      simp [hk]

theorem processLine_feeling_ne_zero (out : ParsedRecord) (raw : List Nat)
    (h : out.feeling ≠ some (JsNum.num 0)) :
    (processLine out raw).feeling ≠ some (JsNum.num 0) := by
  rw [processLine]
  cases hkv : lineKeyVal raw with
  | none => exact h
  | some kv =>
      simp only
      rw [(applyKey_fields out kv.1 kv.2).1]
      split
      · exact jsNumberOrNull_ne_some_zero kv.2
      · exact h

theorem processLine_productivity_ne_zero (out : ParsedRecord)
    (raw : List Nat) (h : out.productivity ≠ some (JsNum.num 0)) :
    (processLine out raw).productivity ≠ some (JsNum.num 0) := by
  rw [processLine]
  cases hkv : lineKeyVal raw with
  | none => exact h
  | some kv =>
      simp only
      rw [(applyKey_fields out kv.1 kv.2).2]
      split
      · exact jsNumberOrNull_ne_some_zero kv.2
      · exact h

theorem foldl_feeling_preserve (lines : List (List Nat)) :
    ∀ out : ParsedRecord,
    (∀ raw ∈ lines, (lineKeyVal raw).map Prod.fst ≠ some kFEELING) →
    (List.foldl processLine out lines).feeling = out.feeling := by
  induction lines with
  | nil => intro out _; rfl
  | cons raw rest ih =>
      intro out h
      rw [List.foldl_cons, ih _ (fun r hr => h r (by simp [hr]))]
      exact processLine_feeling_preserve out raw (h raw (by simp))

theorem foldl_productivity_preserve (lines : List (List Nat)) :
    ∀ out : ParsedRecord,
    (∀ raw ∈ lines, (lineKeyVal raw).map Prod.fst ≠ some kPRODUCTIVITY) →
    (List.foldl processLine out lines).productivity = out.productivity := by
  induction lines with
  | nil => intro out _; rfl
  | cons raw rest ih =>
      intro out h
      rw [List.foldl_cons, ih _ (fun r hr => h r (by simp [hr]))]
      exact processLine_productivity_preserve out raw (h raw (by simp))

theorem foldl_feeling_ne_zero (lines : List (List Nat)) :
    ∀ out : ParsedRecord, out.feeling ≠ some (JsNum.num 0) →
    (List.foldl processLine out lines).feeling ≠ some (JsNum.num 0) := by
  induction lines with
  | nil => intro out h; exact h
  | cons raw rest ih =>
      intro out h
      rw [List.foldl_cons]
      exact ih _ (processLine_feeling_ne_zero out raw h)

theorem foldl_productivity_ne_zero (lines : List (List Nat)) :
    ∀ out : ParsedRecord, out.productivity ≠ some (JsNum.num 0) →
    (List.foldl processLine out lines).productivity ≠ some (JsNum.num 0) := by
  induction lines with
  | nil => intro out h; exact h
  | cons raw rest ih =>
      intro out h
      rw [List.foldl_cons]
      exact ih _ (processLine_productivity_ne_zero out raw h)

/-- Decides that every line of the body that parses to the given key
carries a value on which `Number` yields NaN — the fails-to-parse case of
the claim. -/
def allValuesNaN (text key : List Nat) : Bool :=
  (splitLines text).all fun raw =>
    match lineKeyVal raw with
    | some kv =>
        if kv.1 = key then (jsStringToNumber kv.2).isNone else true
    | none => true

theorem allValuesNaN_spec (text key : List Nat)
    (h : allValuesNaN text key = true) :
    ∀ raw ∈ splitLines text, ∀ kv, lineKeyVal raw = some kv →
      kv.1 = key → jsNumberOrNull kv.2 = none := by
  intro raw hraw kv hkv hk
  have h2 := List.all_eq_true.mp (by rwa [allValuesNaN] at h) raw hraw
  rw [hkv] at h2
  have h3 : (if kv.1 = key then (jsStringToNumber kv.2).isNone else true)
      = true := h2
  rw [if_pos hk] at h3
  have h4 : jsStringToNumber kv.2 = none := Option.isNone_iff_eq_none.mp h3
  rw [jsNumberOrNull, h4]

theorem processLine_feeling_none (out : ParsedRecord) (raw : List Nat)
    (h : out.feeling = none)
    (hline : ∀ kv, lineKeyVal raw = some kv → kv.1 = kFEELING →
      jsNumberOrNull kv.2 = none) :
    (processLine out raw).feeling = none := by
  rw [processLine]
  cases hkv : lineKeyVal raw with
  | none => exact h
  | some kv =>
      simp only
      rw [(applyKey_fields out kv.1 kv.2).1]
      split
      next heq => exact hline kv hkv heq
      next => exact h

theorem processLine_productivity_none (out : ParsedRecord) (raw : List Nat)
    (h : out.productivity = none)
    (hline : ∀ kv, lineKeyVal raw = some kv → kv.1 = kPRODUCTIVITY →
      jsNumberOrNull kv.2 = none) :
    (processLine out raw).productivity = none := by
  rw [processLine]
  cases hkv : lineKeyVal raw with
  | none => exact h
  | some kv =>
      simp only
      rw [(applyKey_fields out kv.1 kv.2).2]
      split
      next heq => exact hline kv hkv heq
      next => exact h

theorem foldl_feeling_none (lines : List (List Nat)) :
    ∀ out : ParsedRecord, out.feeling = none →
    (∀ raw ∈ lines, ∀ kv, lineKeyVal raw = some kv → kv.1 = kFEELING →
      jsNumberOrNull kv.2 = none) →
    (List.foldl processLine out lines).feeling = none := by
  induction lines with
  | nil => intro out h _; exact h
  | cons raw rest ih =>
      intro out h hall
      rw [List.foldl_cons]
      exact ih _ (processLine_feeling_none out raw h (hall raw (by simp)))
        (fun r hr => hall r (by simp [hr]))

theorem foldl_productivity_none (lines : List (List Nat)) :
    ∀ out : ParsedRecord, out.productivity = none →
    (∀ raw ∈ lines, ∀ kv, lineKeyVal raw = some kv →
      kv.1 = kPRODUCTIVITY → jsNumberOrNull kv.2 = none) →
    (List.foldl processLine out lines).productivity = none := by
  induction lines with
  | nil => intro out h _; exact h
  | cons raw rest ih =>
      intro out h hall
      rw [List.foldl_cons]
      exact ih _
        (processLine_productivity_none out raw h (hall raw (by simp)))
        (fun r hr => hall r (by simp [hr]))

theorem finalizeParsed_feeling (out : ParsedRecord) :
    (finalizeParsed out).feeling = out.feeling := by
  rw [finalizeParsed]
  split <;> rfl

theorem finalizeParsed_productivity (out : ParsedRecord) :
    (finalizeParsed out).productivity = out.productivity := by
  rw [finalizeParsed]
  split <;> rfl

/-- C1, counterexample to the round-trip claim as stated: a record with
the in-range rating 0 is not reproduced bit-for-bit — its feeling decodes
as the unset sentinel (`Number(val) || null` collapses a parsed 0 to
null), not as the number 0. -/
theorem c1_roundTrip_cex :
    (parseContentVars (buildContentVars
        { team := [71], name := [65], session := [50], feeling := 0,
          productivity := 5, update := [], timestamp := [116] })).feeling
      = none := by decide

/-- C1, witness: the amended round trip applied to a concrete record
whose free text contains a double quote, a newline and the `=` delimiter
as well as a non-ASCII emoji. -/
theorem parse_build_statusRecord_witness :
    parseContentVars (buildContentVars
        { team := [71, 78, 84], name := [65, 110, 110],
          session := [50, 48, 50, 54], feeling := 7, productivity := 10,
          update := [34, 10, 61, 128077], timestamp := [116, 115] }) =
      { team := [71, 78, 84], name := [65, 110, 110],
        session := [50, 48, 50, 54], feeling := some (JsNum.num 7),
        productivity := some (JsNum.num 10),
        update := [34, 10, 61, 128077],
        updated_at := [116, 115], reactions := some emptyReactionState } :=
  parse_build_statusRecord _ (by decide) (by decide) (by decide) (by decide)
    (by decide) (by decide) (by decide) (by decide) (by decide)

/-- C2, amended: `parseContentVars` is total on any body (it is a Lean
function); a body none of whose lines carries the FEELING (respectively
PRODUCTIVITY) key decodes that rating as the unset sentinel `none`; a
body every one of whose FEELING (respectively PRODUCTIVITY) lines carries
a value that fails to parse as a number — `Number(val)` is NaN — also
decodes that rating as the unset sentinel; and a decoded rating is never
the number 0 — an actual 0 in the body collapses to the same unset
sentinel instead of staying distinct from it. -/
theorem parseContentVars_numeric_sentinels (text : List Nat) :
    ((∀ raw ∈ splitLines text,
        (lineKeyVal raw).map Prod.fst ≠ some kFEELING) →
      (parseContentVars text).feeling = none) ∧
    ((∀ raw ∈ splitLines text,
        (lineKeyVal raw).map Prod.fst ≠ some kPRODUCTIVITY) →
      (parseContentVars text).productivity = none) ∧
    (allValuesNaN text kFEELING = true →
      (parseContentVars text).feeling = none) ∧
    (allValuesNaN text kPRODUCTIVITY = true →
      (parseContentVars text).productivity = none) ∧
    (parseContentVars text).feeling ≠ some (JsNum.num 0) ∧
    (parseContentVars text).productivity ≠ some (JsNum.num 0) := by
  refine ⟨fun h => ?_, fun h => ?_, fun h => ?_, fun h => ?_, ?_, ?_⟩
  · rw [parseContentVars, finalizeParsed_feeling, parseLines]
    rw [foldl_feeling_preserve _ _ h]
    rfl
  · rw [parseContentVars, finalizeParsed_productivity, parseLines]
    rw [foldl_productivity_preserve _ _ h]
    rfl
  · rw [parseContentVars, finalizeParsed_feeling, parseLines]
    exact foldl_feeling_none _ _ rfl (allValuesNaN_spec text kFEELING h)
  · rw [parseContentVars, finalizeParsed_productivity, parseLines]
    exact foldl_productivity_none _ _ rfl
      (allValuesNaN_spec text kPRODUCTIVITY h)
  · rw [parseContentVars, finalizeParsed_feeling, parseLines]
    exact foldl_feeling_ne_zero _ _ (by simp [initParsed])
  · rw [parseContentVars, finalizeParsed_productivity, parseLines]
    exact foldl_productivity_ne_zero _ _ (by simp [initParsed])

/-- C2, counterexample to the claim as stated: the body `FEELING=0`
carries an actual rating of 0, but it decodes as the unset sentinel
`none` rather than as the number 0 distinct from it. -/
theorem parseContentVars_zero_cex :
    (parseContentVars [70, 69, 69, 76, 73, 78, 71, 61, 48]).feeling
      = none := by decide

/-- C2, witness: the amended theorem applied to the concrete bodies
`FEELING=abc` (a value `Number` maps to NaN) and `PRODUCTIVITY=5` (no
FEELING line). -/
theorem parseContentVars_numeric_sentinels_witness :
    (parseContentVars
        [70, 69, 69, 76, 73, 78, 71, 61, 97, 98, 99]).feeling = none ∧
    (parseContentVars
        [80, 82, 79, 68, 85, 67, 84, 73, 86, 73, 84, 89, 61, 53]).feeling
      = none ∧
    (parseContentVars
        [80, 82, 79, 68, 85, 67, 84, 73, 86, 73, 84, 89, 61, 53]).productivity
      ≠ some (JsNum.num 0) :=
  ⟨(parseContentVars_numeric_sentinels _).2.2.1 (by decide),
   (parseContentVars_numeric_sentinels _).1 (by decide),
   (parseContentVars_numeric_sentinels _).2.2.2.2.2⟩

/-- An error raised by a GitHub contents call: the HTTP status and the
constructed message string. -/
structure GhError where
  status : Nat
  msg : List Nat
deriving DecidableEq, Repr

/-- Metadata returned by `ghGetContentsMeta` for an existing file (the
size and path fields play no role in the write coordinator). -/
structure GhMeta where
  sha : List Nat
deriving DecidableEq, Repr

/-- Outcome of one PUT attempt against the contents API. -/
inductive PutResult where
  | ok : PutResult
  | err : GhError → PutResult
deriving DecidableEq, Repr

/-- Environment of `writeFileOverwriteStrict`: the responses the store
gives to its n-th metadata fetch and its n-th PUT.  Metadata fetches are
modelled as always answering (404 is `none`); a thrown fetch error would
surface unchanged and exercises no retry logic. -/
structure StoreOracle where
  getMeta : Nat → Option GhMeta
  put : Nat → PutResult

/-- Substring test, as `RegExp.test` on a literal pattern. -/
def hasSubstr (l pat : List Nat) : Bool :=
  l.tails.any fun t => pat.isPrefixOf t

def lowerAscii (c : Nat) : Nat := if 65 ≤ c ∧ c ≤ 90 then c + 32 else c

/-- Case-insensitive substring test (the `i` regex flag, ASCII range). -/
def hasSubstrCI (l pat : List Nat) : Bool :=
  hasSubstr (l.map lowerAscii) (pat.map lowerAscii)

/-- Character codes of the pattern `"sha" wasn't supplied`. -/
def shaWasntSupplied : List Nat :=
  [34, 115, 104, 97, 34, 32, 119, 97, 115, 110, 39, 116, 32, 115, 117,
   112, 112, 108, 105, 101, 100]

/-- The 422-class check of `writeFileOverwriteStrict`:
`e.status === 422 || /422/.test(msg) || /"sha" wasn't supplied|sha/i.test(msg)`. -/
def test422 (e : GhError) : Bool :=
  e.status == 422 || hasSubstr e.msg [52, 50, 50] ||
  (hasSubstrCI e.msg shaWasntSupplied || hasSubstrCI e.msg [115, 104, 97])

/-- Result and observable trace of one `writeFileOverwriteStrict` run:
the final outcome, the `sha` argument of every PUT attempted in order,
and the number of metadata fetches issued. -/
structure WriteTrace where
  result : Except GhError Unit
  putShas : List (Option (List Nat))
  getCount : Nat
deriving Repr

def putResultExcept : PutResult → Except GhError Unit
  | .ok => .ok ()
  | .err e => .error e

/-- Models `writeFileOverwriteStrict`: fetch the current version (absence
means create), PUT with it; on a 422-class failure refetch once and retry
once (with the refreshed sha, or as a create); on a 409 refetch once and
retry once only if the file still exists, otherwise rethrow; all other
errors surface immediately. -/
def writeFileOverwriteStrict (o : StoreOracle) : WriteTrace :=
  let sha0 := (o.getMeta 0).map GhMeta.sha
  match o.put 0 with
  | .ok => ⟨.ok (), [sha0], 1⟩
  | .err e =>
      if test422 e then
        match o.getMeta 1 with
        | some m => ⟨putResultExcept (o.put 1), [sha0, some m.sha], 2⟩
        | none => ⟨putResultExcept (o.put 1), [sha0, none], 2⟩
      else if e.status == 409 then
        match o.getMeta 1 with
        | some m => ⟨putResultExcept (o.put 1), [sha0, some m.sha], 2⟩
        | none => ⟨.error e, [sha0], 2⟩
      else ⟨.error e, [sha0], 1⟩

/-- C3, amended: the coordinator fetches the current version first and
uses it for the initial CAS attempt; a 422-class version error triggers
exactly one refetch and one retry with the refreshed version (create when
the file is gone); a 409 triggers exactly one refetch, and one retry only
when the refetch still finds the file — when it does not, the original
error is rethrown with no second attempt; the single retry outcome is
surfaced verbatim, never retried further, and no error path reports
success. -/
theorem writeFileOverwriteStrict_retry (o : StoreOracle) :
    (writeFileOverwriteStrict o).putShas.length ≤ 2 ∧
    (writeFileOverwriteStrict o).putShas.head? =
      some ((o.getMeta 0).map GhMeta.sha) ∧
    (o.put 0 = .ok →
      writeFileOverwriteStrict o =
        ⟨.ok (), [(o.getMeta 0).map GhMeta.sha], 1⟩) ∧
    (∀ e, o.put 0 = .err e → test422 e = true →
      writeFileOverwriteStrict o =
        ⟨putResultExcept (o.put 1),
         [(o.getMeta 0).map GhMeta.sha, (o.getMeta 1).map GhMeta.sha], 2⟩) ∧
    (∀ e m, o.put 0 = .err e → test422 e = false → e.status = 409 →
      o.getMeta 1 = some m →
      writeFileOverwriteStrict o =
        ⟨putResultExcept (o.put 1),
         [(o.getMeta 0).map GhMeta.sha, some m.sha], 2⟩) ∧
    (∀ e, o.put 0 = .err e → test422 e = false → e.status = 409 →
      o.getMeta 1 = none →
      writeFileOverwriteStrict o =
        ⟨.error e, [(o.getMeta 0).map GhMeta.sha], 2⟩) ∧
    (∀ e, o.put 0 = .err e → test422 e = false → e.status ≠ 409 →
      writeFileOverwriteStrict o =
        ⟨.error e, [(o.getMeta 0).map GhMeta.sha], 1⟩) := by
  refine ⟨?_, ?_, ?_, ?_, ?_, ?_, ?_⟩
  · simp only [writeFileOverwriteStrict]
    split
    · simp
    · split
      · split <;> simp
      · split
        · split <;> simp
        · simp
  · simp only [writeFileOverwriteStrict]
    split
    · simp
    · split
      · split <;> simp
      · split
        · split <;> simp
        · simp
  · intro h
    simp only [writeFileOverwriteStrict]
    split
    · rfl
    next e3 heq =>
      rw [h] at heq
      simp at heq
  · intro e2 he2 ht
    simp only [writeFileOverwriteStrict]
    split
    next heq =>
      rw [he2] at heq
      simp at heq
    next e3 heq =>
      rw [he2] at heq
      injection heq with h3
      subst h3
      rw [if_pos ht]
      split
      next m2 hm2 => simp [hm2]
      next hm2 => simp [hm2]
  · intro e2 m he2 ht hst hm
    simp only [writeFileOverwriteStrict]
    split
    next heq =>
      rw [he2] at heq
      simp at heq
    next e3 heq =>
      rw [he2] at heq
      injection heq with h3
      subst h3
      rw [if_neg (by simp [ht])]
      rw [if_pos (by simp [hst])]
      split
      next m2 hm2 =>
        rw [hm] at hm2
        injection hm2 with h4
        subst h4
        rfl
      next hm2 =>
        rw [hm] at hm2
        simp at hm2
  · intro e2 he2 ht hst hm
    simp only [writeFileOverwriteStrict]
    split
    next heq =>
      rw [he2] at heq
      simp at heq
    next e3 heq =>
      rw [he2] at heq
      injection heq with h3
      subst h3
      rw [if_neg (by simp [ht])]
      rw [if_pos (by simp [hst])]
      split
      next m2 hm2 =>
        rw [hm] at hm2
        simp at hm2
      next hm2 => rfl
  · intro e2 he2 ht hne
    simp only [writeFileOverwriteStrict]
    split
    next heq =>
      rw [he2] at heq
      simp at heq
    next e3 heq =>
      rw [he2] at heq
      injection heq with h3
      subst h3
      rw [if_neg (by simp [ht])]
      rw [if_neg (by simp [hne])]

/-- C3, witness: a 422 version error on the first attempt leads to one
refetch and one retry with the refreshed sha, whose success is returned. -/
theorem writeFileOverwriteStrict_retry_witness :
    writeFileOverwriteStrict
        { getMeta := fun i => if i = 0 then some ⟨[97]⟩ else some ⟨[98]⟩,
          put := fun i => if i = 0 then .err ⟨422, []⟩ else .ok } =
      ⟨.ok (), [some [97], some [98]], 2⟩ :=
  (writeFileOverwriteStrict_retry _).2.2.2.1 ⟨422, []⟩ rfl rfl

/-- C3, counterexample to the claim as stated: on a 409 conflict whose
refetch finds the file deleted, the coordinator does not retry the write
at all — it rethrows the original error after a single PUT attempt,
whereas the claim promises exactly one retry on every 409/422 mismatch. -/
theorem c3_retry409_cex :
    writeFileOverwriteStrict
        { getMeta := fun i => if i = 0 then some ⟨[97]⟩ else none,
          put := fun _ =>
            .err ⟨409, [52, 48, 57, 32, 67, 111, 110, 102, 108, 105,
                        99, 116]⟩ } =
      ⟨.error ⟨409, [52, 48, 57, 32, 67, 111, 110, 102, 108, 105, 99, 116]⟩,
       [some [97]], 2⟩ ∧
    (writeFileOverwriteStrict
        { getMeta := fun i => if i = 0 then some ⟨[97]⟩ else none,
          put := fun _ =>
            .err ⟨409, [52, 48, 57, 32, 67, 111, 110, 102, 108, 105,
                        99, 116]⟩ }).putShas.length = 1 :=
  ⟨rfl, rfl⟩

/-- The sync-engine fields of the runtime state: the single in-flight
flag, the backoff delay, and the pending poll timer (its delay). -/
structure SyncState where
  isSyncing : Bool
  backoffMs : Nat
  nextPollTimeout : Option Nat
deriving DecidableEq, Repr

/-- How one sync cycle body ends: the passphrase-locked early return, a
full successful pass, or a thrown error carrying its message. -/
inductive CycleOutcome where
  | locked : CycleOutcome
  | success : CycleOutcome
  | failure : List Nat → CycleOutcome
deriving DecidableEq, Repr

def isWordChar (c : Nat) : Bool :=
  (48 ≤ c && c ≤ 57) || (65 ≤ c && c ≤ 90) || (97 ≤ c && c ≤ 122) || c = 95

/-- Matches `^<code>\b` on a message: the literal code at the start
followed by a word boundary. -/
def startsWithCodeB (code msg : List Nat) : Bool :=
  code.isPrefixOf msg &&
    (match msg.drop code.length with
     | [] => true
     | c :: _ => !isWordChar c)

/-- Character codes of `rate limit`. -/
def rateLimitPat : List Nat := [114, 97, 116, 101, 32, 108, 105, 109, 105, 116]

/-- The rate-limit classifier of `refreshBoard`:
`/^403\b|^429\b|rate limit/i.test(msg)`. -/
def isThrottleMsg (msg : List Nat) : Bool :=
  startsWithCodeB [52, 48, 51] msg || startsWithCodeB [52, 50, 57] msg ||
  hasSubstrCI msg rateLimitPat

/-- Models `scheduleNextPoll`: replace any pending timer with one firing
after `max(2000, POLL_INTERVAL_MS || 10000) + backoffMs` (a poll interval
of 0 stands for the unset/NaN configuration falling back to 10000). -/
def scheduleNextPoll (pollMs : Nat) (s : SyncState) : SyncState :=
  let wait := max 2000 (if pollMs = 0 then 10000 else pollMs) + s.backoffMs
  { s with nextPollTimeout := some wait }

/-- The body of one `refreshBoard` cycle, reduced to its effect on the
backoff state: the locked early return and the full success both reset
the backoff; a thrown error bumps it only when the message is
rate-limit-class (`backoffMs ? min(backoffMs*2, 60000) : 5000`). -/
def cycleBody (s : SyncState) (o : CycleOutcome) : SyncState :=
  match o with
  | .locked => { s with backoffMs := 0 }
  | .success => { s with backoffMs := 0 }
  | .failure msg =>
      if isThrottleMsg msg then
        { s with backoffMs :=
            if s.backoffMs = 0 then 5000 else min (s.backoffMs * 2) 60000 }
      else s

/-- Models `refreshBoard` as a state transformer: the re-entrancy guard,
then the body with `isSyncing` set, then the finally block clearing
`isSyncing` and scheduling the next poll. -/
def refreshBoard (pollMs : Nat) (s : SyncState) (o : CycleOutcome) :
    SyncState :=
  if s.isSyncing then s
  else
    scheduleNextPoll pollMs
      { cycleBody { s with isSyncing := true } o with isSyncing := false }

theorem refreshBoard_isSyncing (p : Nat) (s : SyncState) (o : CycleOutcome)
    (h : s.isSyncing = false) : (refreshBoard p s o).isSyncing = false := by
  rw [refreshBoard, if_neg (by simp [h])]
  rfl

theorem refreshBoard_backoffMs_eq (p : Nat) (s : SyncState)
    (o : CycleOutcome) (h : s.isSyncing = false) :
    (refreshBoard p s o).backoffMs =
      (cycleBody { s with isSyncing := true } o).backoffMs := by
  rw [refreshBoard, if_neg (by simp [h])]
  rfl

theorem cycleBody_backoffMs (s : SyncState) :
    ∀ o : CycleOutcome, (cycleBody s o).backoffMs =
      match o with
      | .locked => 0
      | .success => 0
      | .failure msg =>
          if isThrottleMsg msg then
            if s.backoffMs = 0 then 5000 else min (s.backoffMs * 2) 60000
          else s.backoffMs := by
  intro o
  cases o with
  | locked => rfl
  | success => rfl
  | failure msg =>
      rw [cycleBody]
      split <;> simp_all

/-- C4, amended: a throttled cycle (403/429/rate-limit message) sets the
backoff to the 5000 ms floor when it was zero and otherwise doubles it
capped at 60000 ms, so three consecutive throttled cycles from zero yield
5000, 10000, 20000; a successful cycle (including the locked early
return) resets the backoff to zero; a cycle failing with a non-throttling
error leaves the backoff unchanged rather than resetting it. -/
theorem refreshBoard_backoff (p : Nat) (s : SyncState) (m : List Nat)
    (hidle : s.isSyncing = false) :
    (isThrottleMsg m = true →
      (refreshBoard p s (.failure m)).backoffMs =
        (if s.backoffMs = 0 then 5000 else min (s.backoffMs * 2) 60000)) ∧
    (refreshBoard p s .success).backoffMs = 0 ∧
    (refreshBoard p s .locked).backoffMs = 0 ∧
    (isThrottleMsg m = false →
      (refreshBoard p s (.failure m)).backoffMs = s.backoffMs) ∧
    (s.backoffMs = 0 → isThrottleMsg m = true →
      (refreshBoard p s (.failure m)).backoffMs = 5000 ∧
      (refreshBoard p (refreshBoard p s (.failure m))
          (.failure m)).backoffMs = 10000 ∧
      (refreshBoard p (refreshBoard p (refreshBoard p s (.failure m))
          (.failure m)) (.failure m)).backoffMs = 20000 ∧
      (refreshBoard p (refreshBoard p (refreshBoard p
          (refreshBoard p s (.failure m)) (.failure m)) (.failure m))
          .success).backoffMs = 0) := by
  have hb1 := refreshBoard_backoffMs_eq p s (.failure m) hidle
  have hs1 := refreshBoard_isSyncing p s (.failure m) hidle
  refine ⟨?_, ?_, ?_, ?_, ?_⟩
  · intro ht
    rw [hb1, cycleBody_backoffMs]
    simp [ht]
  · rw [refreshBoard_backoffMs_eq p s .success hidle, cycleBody_backoffMs]
  · rw [refreshBoard_backoffMs_eq p s .locked hidle, cycleBody_backoffMs]
  · intro ht
    rw [hb1, cycleBody_backoffMs]
    simp [ht]
  · intro hz ht
    have e1 : (refreshBoard p s (.failure m)).backoffMs = 5000 := by
      rw [hb1, cycleBody_backoffMs]
      simp [ht, hz]
    have hs2 := refreshBoard_isSyncing p (refreshBoard p s (.failure m))
      (.failure m) hs1
    have e2 : (refreshBoard p (refreshBoard p s (.failure m))
        (.failure m)).backoffMs = 10000 := by
      rw [refreshBoard_backoffMs_eq _ _ _ hs1, cycleBody_backoffMs]
      simp [ht, e1]
    have e3 : (refreshBoard p (refreshBoard p (refreshBoard p s
        (.failure m)) (.failure m)) (.failure m)).backoffMs = 20000 := by
      rw [refreshBoard_backoffMs_eq _ _ _ hs2, cycleBody_backoffMs]
      simp [ht, e2]
    have hs3 := refreshBoard_isSyncing p _ (.failure m) hs2
    refine ⟨e1, e2, e3, ?_⟩
    rw [refreshBoard_backoffMs_eq _ _ _ hs3, cycleBody_backoffMs]

/-- C4, counterexample to the claim as stated: a cycle that fails with a
non-throttling error (message `500`) completes without a throttling
failure, yet the backoff stays at 5000 ms instead of resetting to zero. -/
theorem c4_backoff_cex :
    (refreshBoard 10000 ⟨false, 5000, none⟩
        (.failure [53, 48, 48])).backoffMs = 5000 ∧ (5000 : Nat) ≠ 0 :=
  ⟨rfl, by decide⟩

/-- C4, witness: the backoff progression at a concrete throttled message
`403` from a concrete idle state. -/
theorem refreshBoard_backoff_witness :
    (refreshBoard 10000 ⟨false, 0, none⟩ (.failure [52, 48, 51])).backoffMs
      = 5000 ∧
    (refreshBoard 10000 (refreshBoard 10000 ⟨false, 0, none⟩
        (.failure [52, 48, 51])) (.failure [52, 48, 51])).backoffMs
      = 10000 :=
  ⟨((refreshBoard_backoff 10000 ⟨false, 0, none⟩ [52, 48, 51] rfl).2.2.2.2
      rfl rfl).1,
   ((refreshBoard_backoff 10000 ⟨false, 0, none⟩ [52, 48, 51] rfl).2.2.2.2
      rfl rfl).2.1⟩

/-- C5: a re-entrant trigger while a cycle is in flight is a no-op
returning the state unchanged; a cycle that does run ends with
`isSyncing` cleared in its guaranteed final step; and the body itself
never clears the flag — only the finally step does. -/
theorem refreshBoard_mutex (p : Nat) (s : SyncState) (o : CycleOutcome) :
    (s.isSyncing = true → refreshBoard p s o = s) ∧
    (s.isSyncing = false → (refreshBoard p s o).isSyncing = false) ∧
    (∀ t : SyncState, t.isSyncing = true → (cycleBody t o).isSyncing = true) := by
  refine ⟨?_, ?_, ?_⟩
  · intro h
    rw [refreshBoard, if_pos (by simp [h])]
  · intro h
    exact refreshBoard_isSyncing p s o h
  · intro t ht
    cases o with
    | locked => exact ht
    | success => exact ht
    | failure msg =>
        rw [cycleBody]
        split <;> simpa using ht

/-- C5, witness: the mutual exclusion facts at a concrete in-flight
state. -/
theorem refreshBoard_mutex_witness :
    refreshBoard 10000 ⟨true, 0, none⟩ .success = ⟨true, 0, none⟩ ∧
    (refreshBoard 10000 ⟨false, 0, none⟩ .success).isSyncing = false ∧
    (cycleBody ⟨true, 0, none⟩ .success).isSyncing = true :=
  ⟨(refreshBoard_mutex 10000 ⟨true, 0, none⟩ .success).1 rfl,
   (refreshBoard_mutex 10000 ⟨false, 0, none⟩ .success).2.1 rfl,
   (refreshBoard_mutex 10000 ⟨true, 0, none⟩ .success).2.2 _ rfl⟩

/-- C6, amended: every cycle that starts (the guard passes) ends with
exactly one next cycle scheduled, in the finally step, for every outcome
— success, locked early return, throttled or other failure — with delay
`max(2000, pollInterval || 10000)` plus the post-cycle backoff; the
pending timer is replaced, never accumulated. -/
theorem refreshBoard_schedules (p : Nat) (s : SyncState) (o : CycleOutcome)
    (hidle : s.isSyncing = false) :
    (refreshBoard p s o).nextPollTimeout =
      some (max 2000 (if p = 0 then 10000 else p) +
        (refreshBoard p s o).backoffMs) := by
  rw [refreshBoard, if_neg (by simp [hidle])]
  rfl

/-- C6, counterexample to the claim as stated: with the poll interval
configured to 1000 ms, the scheduled delay of a successful idle cycle is
2000 ms (the hard floor), not the poll interval 1000 plus the zero
backoff. -/
theorem c6_schedule_cex :
    (refreshBoard 1000 ⟨false, 0, none⟩ .success).nextPollTimeout
      = some 2000 ∧ (2000 : Nat) ≠ 1000 + 0 :=
  ⟨rfl, by decide⟩

/-- C6, witness: the schedule law at the default 10000 ms poll interval
for a failing cycle. -/
theorem refreshBoard_schedules_witness :
    (refreshBoard 10000 ⟨false, 0, none⟩
        (.failure [52, 48, 51])).nextPollTimeout = some 15000 :=
  (refreshBoard_schedules 10000 ⟨false, 0, none⟩
      (.failure [52, 48, 51]) rfl).trans rfl

/-- The three reaction emojis of the application. -/
inductive REmoji where
  | thumbs : REmoji
  | check : REmoji
  | heart : REmoji
deriving DecidableEq, Repr

/-- Team-wide counts per emoji for one target key; `emptyReactions()`
initialises all three to 0. -/
structure RCounts where
  thumbs : Nat
  check : Nat
  heart : Nat
deriving DecidableEq, Repr

def emptyReactions : RCounts := ⟨0, 0, 0⟩

def fGet (f : RFlags) : REmoji → Bool
  | .thumbs => f.thumbs
  | .check => f.check
  | .heart => f.heart

def cGet (c : RCounts) : REmoji → Nat
  | .thumbs => c.thumbs
  | .check => c.check
  | .heart => c.heart

/-- Models keyed lookup on a JavaScript Map or plain-object property
table. -/
def mapGet {V : Type} (t : List (List Nat × V)) (k : List Nat) :
    Option V :=
  (t.find? fun p => p.1 == k).map (·.2)

/-- Models keyed assignment on a JavaScript Map or plain-object property
table: replace in place, else append, keeping insertion order. -/
def mapSet {V : Type} (t : List (List Nat × V)) (k : List Nat) (v : V) :
    List (List Nat × V) :=
  match t with
  | [] => [(k, v)]
  | (k2, v2) :: rest =>
      if k2 = k then (k2, v) :: rest else (k2, v2) :: mapSet rest k v

/-- The reaction entries the aggregator iterates for one record:
`(u.reactions?.by_target) || {}`. -/
def byTargetOf (u : ParsedRecord) : List (List Nat × RFlags) :=
  match u.reactions with
  | some r => r.by_target
  | none => []

/-- One entry of the inner loop: three conditional increments on the
current entry (`(entry[emoji]||0) + 1` under each true flag). -/
def bumpCounts (entry : RCounts) (f : RFlags) : RCounts :=
  let e1 := if f.thumbs then { entry with thumbs := entry.thumbs + 1 }
            else entry
  let e2 := if f.check then { e1 with check := e1.check + 1 } else e1
  if f.heart then { e2 with heart := e2.heart + 1 } else e2

/-- One step of the inner `for (const [base, flags] of entries)` loop. -/
def entryStep (t : List (List Nat × RCounts))
    (bf : List Nat × RFlags) : List (List Nat × RCounts) :=
  mapSet t bf.1 (bumpCounts ((mapGet t bf.1).getD emptyReactions) bf.2)

/-- Models `aggregateReactions`: fold every record, and inside it every
`by_target` entry, into a fresh totals map (no persisted running
total — the map starts empty on every call). -/
def aggregateReactions (parsedList : List ParsedRecord) :
    List (List Nat × RCounts) :=
  parsedList.foldl (fun totals u => (byTargetOf u).foldl entryStep totals) []

/-- Reading a total back out of the aggregate, with the
`totals.get(base) || emptyReactions()` default the renderer uses. -/
def totalOf (t : List (List Nat × RCounts)) (b : List Nat) (e : REmoji) :
    Nat :=
  cGet ((mapGet t b).getD emptyReactions) e

/-- Whether one record marks the (target, emoji) flag true. -/
def recMarks (u : ParsedRecord) (b : List Nat) (e : REmoji) : Bool :=
  match (byTargetOf u).find? (fun p => p.1 == b) with
  | some p => fGet p.2 e
  | none => false

theorem mapGet_mapSet {V : Type} (t : List (List Nat × V)) (k : List Nat)
    (v : V) (b : List Nat) :
    mapGet (mapSet t k v) b = if b = k then some v else mapGet t b := by
  induction t with
  | nil =>
      rw [mapSet, mapGet]
      by_cases hb : b = k
      · subst hb
        rw [List.find?_cons_of_pos _ (by simp)]
        simp
      · rw [List.find?_cons_of_neg _ (by simp; exact fun h => hb h.symm)]
        simp [hb, mapGet, List.find?]
  | cons p rest ih =>
      obtain ⟨k2, v2⟩ := p
      rw [mapSet]
      by_cases hk : k2 = k
      · subst hk
        rw [if_pos rfl, mapGet]
        by_cases hb : b = k2
        · subst hb
          rw [List.find?_cons_of_pos _ (by simp)]
          simp
        · rw [List.find?_cons_of_neg _ (by simp; exact fun h => hb h.symm)]
          rw [if_neg hb, mapGet]
          rw [List.find?_cons_of_neg _ (by simp; exact fun h => hb h.symm)]
      · rw [if_neg hk]
        by_cases hb : b = k2
        · subst hb
          rw [if_neg hk]
          rw [mapGet, List.find?_cons_of_pos _ (by simp)]
          rw [mapGet, List.find?_cons_of_pos _ (by simp)]
        · rw [mapGet,
              List.find?_cons_of_neg _ (by simp; intro h; exact hb h.symm)]
          rw [show Option.map (fun x => x.2)
                (List.find? (fun p => p.1 == b) (mapSet rest k v)) =
              mapGet (mapSet rest k v) b from rfl]
          rw [ih]
          by_cases hbk : b = k
          · rw [if_pos hbk, if_pos hbk]
          · rw [if_neg hbk, if_neg hbk]
            show mapGet rest b = mapGet ((k2, v2) :: rest) b
            rw [mapGet, mapGet,
                List.find?_cons_of_neg _ (by simp; intro h; exact hb h.symm)]

theorem cGet_bumpCounts (entry : RCounts) (f : RFlags) (e : REmoji) :
    cGet (bumpCounts entry f) e =
      cGet entry e + (if fGet f e then 1 else 0) := by
  obtain ⟨ft, fc, fh⟩ := f
  cases e <;> cases ft <;> cases fc <;> cases fh <;>
    simp [bumpCounts, fGet, cGet]

/-- Per-entry count contribution for one (target, emoji). -/
def countEntries (entries : List (List Nat × RFlags)) (b : List Nat)
    (e : REmoji) : Nat :=
  entries.countP fun bf => bf.1 == b && fGet bf.2 e

theorem countEntries_cons (bf : List Nat × RFlags)
    (rest : List (List Nat × RFlags)) (b : List Nat) (e : REmoji) :
    countEntries (bf :: rest) b e =
      countEntries rest b e + (if bf.1 = b ∧ fGet bf.2 e then 1 else 0) := by
  rw [countEntries, List.countP_cons, ← countEntries]
  congr 1
  by_cases h1 : bf.1 = b
  · by_cases h2 : fGet bf.2 e
    · simp [h1, h2]
    · simp [h1, h2]
  · simp [h1]

theorem totalOf_entriesFold (entries : List (List Nat × RFlags)) :
    ∀ t b e, totalOf (entries.foldl entryStep t) b e =
      totalOf t b e + countEntries entries b e := by
  induction entries with
  | nil => intro t b e; simp [countEntries]
  | cons bf rest ih =>
      intro t b e
      rw [List.foldl_cons, ih, countEntries_cons]
      have hstep : totalOf (entryStep t bf) b e =
          totalOf t b e + (if bf.1 = b ∧ fGet bf.2 e then 1 else 0) := by
        rw [totalOf, entryStep, mapGet_mapSet]
        by_cases hb : b = bf.1
        · subst hb
          rw [if_pos rfl]
          simp only [Option.getD_some]
          rw [cGet_bumpCounts]
          by_cases hf : fGet bf.2 e
          · simp [hf, totalOf]
          · simp [hf, totalOf]
        · rw [if_neg hb]
          rw [if_neg (fun h => hb h.1.symm)]
          rfl
      rw [hstep]
      omega

theorem totalOf_aggFold (l : List ParsedRecord) :
    ∀ t b e, totalOf
        (l.foldl (fun totals u => (byTargetOf u).foldl entryStep totals) t)
        b e =
      totalOf t b e +
        (l.map fun u => countEntries (byTargetOf u) b e).sum := by
  induction l with
  | nil => intro t b e; simp
  | cons u rest ih =>
      intro t b e
      rw [List.foldl_cons, ih, totalOf_entriesFold]
      simp
      omega

theorem countEntries_zero_of_not_mem (entries : List (List Nat × RFlags))
    (b : List Nat) (e : REmoji) (h : b ∉ entries.map Prod.fst) :
    countEntries entries b e = 0 := by
  induction entries with
  | nil => rfl
  | cons bf rest ih =>
      rw [countEntries_cons]
      have hb : ¬(bf.1 = b ∧ fGet bf.2 e) := fun hx =>
        h (by rw [List.map_cons, ← hx.1]; exact List.mem_cons_self _ _)
      rw [ih (fun hx =>
        h (by rw [List.map_cons]; exact List.mem_cons_of_mem _ hx)), if_neg hb]

theorem countEntries_nodup (entries : List (List Nat × RFlags))
    (b : List Nat) (e : REmoji) (hnd : (entries.map Prod.fst).Nodup) :
    countEntries entries b e =
      (if (match entries.find? (fun p => p.1 == b) with
           | some p => fGet p.2 e
           | none => false) = true then 1 else 0) := by
  induction entries with
  | nil => rfl
  | cons bf rest ih =>
      rw [countEntries_cons]
      have hnd2 : (rest.map Prod.fst).Nodup := (List.nodup_cons.mp hnd).2
      have hnotm : bf.1 ∉ rest.map Prod.fst := (List.nodup_cons.mp hnd).1
      by_cases hb : bf.1 = b
      · rw [countEntries_zero_of_not_mem rest b e (hb ▸ hnotm)]
        rw [List.find?_cons_of_pos _ (by simp [hb])]
        by_cases hf : fGet bf.2 e
        · simp [hf, hb]
        · simp [hf, hb]
      · rw [List.find?_cons_of_neg _ (by simp [hb])]
        rw [ih hnd2]
        simp [hb]

theorem sum_indicator_countP (l : List ParsedRecord)
    (p : ParsedRecord → Bool) :
    (l.map fun u => if p u then 1 else 0).sum = l.countP p := by
  induction l with
  | nil => rfl
  | cons u rest ih =>
      rw [List.map_cons, List.sum_cons, List.countP_cons, ih]
      by_cases h : p u
      · simp [h]
        omega
      · simp [h]

/-- C7: the aggregator reports, for each target key and emoji, exactly
the number of records whose embedded reaction state marks that (target,
emoji) flag true (records with well-formed, duplicate-free target maps,
as JavaScript object keys always are); the totals are identical for
every permutation of the fetched record list, and the map is rebuilt
from the per-record flags alone on every call. -/
theorem aggregateReactions_counts (l : List ParsedRecord)
    (hnd : ∀ u ∈ l, ((byTargetOf u).map Prod.fst).Nodup) :
    (∀ b e, totalOf (aggregateReactions l) b e =
      l.countP fun u => recMarks u b e) ∧
    (∀ l2, l.Perm l2 → ∀ b e,
      totalOf (aggregateReactions l) b e =
        totalOf (aggregateReactions l2) b e) := by
  have hmain : ∀ (l3 : List ParsedRecord),
      (∀ u ∈ l3, ((byTargetOf u).map Prod.fst).Nodup) →
      ∀ b e, totalOf (aggregateReactions l3) b e =
        l3.countP fun u => recMarks u b e := by
    intro l3 hnd3 b e
    rw [aggregateReactions, totalOf_aggFold]
    have hz : totalOf [] b e = 0 := by cases e <;> rfl
    rw [hz]
    rw [show (l3.map fun u => countEntries (byTargetOf u) b e) =
        l3.map fun u => if recMarks u b e then 1 else 0 from ?_]
    · rw [sum_indicator_countP]
      omega
    · apply List.map_congr_left
      intro u hu
      rw [countEntries_nodup _ _ _ (hnd3 u hu)]
      rw [recMarks]
  refine ⟨hmain l hnd, ?_⟩
  intro l2 hperm b e
  rw [hmain l hnd b e,
      hmain l2 (fun u hu => hnd (u) (hperm.symm.subset hu)) b e]
  exact hperm.countP_eq _

/-- A parsed record carrying only a reaction state, as the aggregator
consumes it. -/
def recWithReactions (r : ReactionState) : ParsedRecord :=
  { initParsed with reactions := some r }

/-- C7, witness: two records both marking thumbs on target `B`, given in
either order, both aggregate to a thumbs count of 2. -/
theorem aggregateReactions_counts_witness :
    totalOf (aggregateReactions
      [recWithReactions ⟨none, [([66], ⟨true, false, false⟩)]⟩,
       recWithReactions ⟨none, [([66], ⟨true, true, false⟩)]⟩]) [66] .thumbs
      = 2 ∧
    totalOf (aggregateReactions
      [recWithReactions ⟨none, [([66], ⟨true, true, false⟩)]⟩,
       recWithReactions ⟨none, [([66], ⟨true, false, false⟩)]⟩]) [66] .thumbs
      = 2 := by
  constructor
  · rw [(aggregateReactions_counts _ (by decide)).1 [66] .thumbs]
    decide
  · rw [(aggregateReactions_counts _ (by decide)).1 [66] .thumbs]
    decide
/-- One entry of `state.cache.files`: the stored ETag, the decoded body
text and the blob sha. -/
structure FileCacheEntry where
  etag : Option (List Nat)
  text : List Nat
  sha : List Nat
deriving DecidableEq, Repr

/-- What the store answers to a conditional file read: `304` unchanged, a
`200` with new etag, base64 content and sha, or a failure. -/
inductive ReadResponse where
  | notModified : ReadResponse
  | changed : Option (List Nat) → List Nat → Bool → List Nat → ReadResponse
  | failed : GhError → ReadResponse
deriving DecidableEq, Repr

/-- Models `readFileContent` as a function of the current file cache and
the response of the conditional GET for `path`: a 304 serves
`prev.text || empty` and leaves the cache untouched; a 200 decodes the
base64 body (newlines stripped first) and replaces the entry with the
new etag, text and sha in one assignment; a failure throws leaving the
cache untouched.  The `changed` flag carries whether
`json.encoding === base64` held. -/
def readFileContent (cache : List (List Nat × FileCacheEntry))
    (path : List Nat) (resp : ReadResponse) :
    Except GhError (List Nat) × List (List Nat × FileCacheEntry) :=
  match resp with
  | .notModified =>
      (.ok (match mapGet cache path with
            | some prev => prev.text
            | none => []), cache)
  | .changed etag content enc sha =>
      let text := if content ≠ [] ∧ enc then
          fromBase64 (content.filter fun c => c ≠ 10)
        else []
      (.ok text, mapSet cache path ⟨etag, text, sha⟩)
  | .failed e => (.error e, cache)

/-- C8: a 304 read returns the cached body and leaves every cache entry
untouched; a 200 read replaces the entry for the path with the new
{etag, body, sha} as a single update, leaving every other path alone; a
failing read changes nothing; and no response ever removes an entry. -/
theorem readFileContent_cache (cache : List (List Nat × FileCacheEntry))
    (path : List Nat) (resp : ReadResponse) :
    (resp = .notModified →
      (readFileContent cache path resp).2 = cache ∧
      ∀ prev, mapGet cache path = some prev →
        (readFileContent cache path resp).1 = .ok prev.text) ∧
    (∀ etag content enc sha, resp = .changed etag content enc sha →
      ∃ text, (readFileContent cache path resp).1 = .ok text ∧
        (readFileContent cache path resp).2 =
          mapSet cache path ⟨etag, text, sha⟩ ∧
        mapGet (readFileContent cache path resp).2 path =
          some ⟨etag, text, sha⟩ ∧
        ∀ q, q ≠ path →
          mapGet (readFileContent cache path resp).2 q = mapGet cache q) ∧
    (∀ e, resp = .failed e →
      (readFileContent cache path resp).2 = cache ∧
      (readFileContent cache path resp).1 = .error e) ∧
    (∀ q, mapGet cache q ≠ none →
      mapGet (readFileContent cache path resp).2 q ≠ none) := by
  refine ⟨?_, ?_, ?_, ?_⟩
  · intro h
    subst h
    refine ⟨rfl, ?_⟩
    intro prev hprev
    rw [readFileContent]
    simp only [hprev]
  · intro etag content enc sha h
    subst h
    refine ⟨_, rfl, rfl, ?_, ?_⟩
    · rw [readFileContent]
      simp only
      rw [mapGet_mapSet, if_pos rfl]
    · intro q hq
      rw [readFileContent]
      simp only
      rw [mapGet_mapSet, if_neg hq]
  · intro e h
    subst h
    exact ⟨rfl, rfl⟩
  · intro q hq
    cases resp with
    | notModified => exact hq
    | failed e => exact hq
    | changed etag content enc sha =>
        rw [readFileContent]
        simp only
        rw [mapGet_mapSet]
        by_cases h2 : q = path
        · simp [h2]
        · rw [if_neg h2]
          exact hq

/-- C8, witness: the facts at a concrete one-entry cache, for a 304 and
then for a 200 response. -/
theorem readFileContent_cache_witness :
    (readFileContent [([112], ⟨some [101], [104, 105], [115]⟩)] [112]
        .notModified).2 = [([112], ⟨some [101], [104, 105], [115]⟩)] ∧
    (readFileContent [([112], ⟨some [101], [104, 105], [115]⟩)] [112]
        .notModified).1 = .ok [104, 105] ∧
    mapGet (readFileContent [([112], ⟨some [101], [104, 105], [115]⟩)]
        [112] (.changed (some [102]) [97, 103, 61, 61] true [116])).2 [112]
      = some ⟨some [102], [106], [116]⟩ := by
  refine ⟨((readFileContent_cache _ _ _).1 rfl).1,
          ((readFileContent_cache _ _ _).1 rfl).2
            ⟨some [101], [104, 105], [115]⟩ rfl, ?_⟩
  rfl
/-- One step of the in-place Fisher-Yates shuffle:
`[arr[i],arr[j]]=[arr[j],arr[i]]` (identity when an index is out of
range, which the loop never produces). -/
def swapIdx {α : Type} (l : List α) (i j : Nat) : List α :=
  match l[i]?, l[j]? with
  | some a, some b => (l.set i b).set j a
  | _, _ => l

/-- The descending loop of `shuffle`: at loop index `i`, the random draw
`Math.floor(Math.random()*(i+1))` is modelled by `rand i % (i + 1)`, an
arbitrary in-range choice. -/
def shuffleGo {α : Type} (rand : Nat → Nat) : List α → Nat → List α
  | arr, 0 => arr
  | arr, i + 1 => shuffleGo rand (swapIdx arr (i + 1) (rand (i + 1) % (i + 2))) i

/-- Models `shuffle` (in-place Fisher-Yates over a copy). -/
def shuffle {α : Type} (rand : Nat → Nat) (arr : List α) : List α :=
  shuffleGo rand arr (arr.length - 1)

theorem swapIdx_perm {α : Type} [DecidableEq α] (l : List α) (i j : Nat) :
    (swapIdx l i j).Perm l := by
  rw [swapIdx]
  split
  next a b hi hj =>
    obtain ⟨hil, hia⟩ := List.getElem?_eq_some.mp hi
    obtain ⟨hjl, hjb⟩ := List.getElem?_eq_some.mp hj
    have hamem : a ∈ l := hia ▸ List.getElem_mem hil
    have hbmem : b ∈ l := hjb ▸ List.getElem_mem hjl
    rw [List.perm_iff_count]
    intro x
    have hj2 : j < (l.set i b).length := by simpa using hjl
    rw [List.count_set a x (l.set i b) j hj2]
    rw [List.count_set b x l i hil]
    by_cases hij : i = j
    · subst hij
      have hab : a = b := by
        rw [hi] at hj
        exact Option.some.inj hj
      subst hab
      rw [List.getElem_set_self]
      rw [hia]
      by_cases hax : a = x
      · have hc : 1 ≤ List.count x l := List.one_le_count_iff.mpr (hax ▸ hamem)
        simp [hax] <;> omega
      · simp [hax]
    · rw [List.getElem_set_ne hij]
      rw [hia, hjb]
      by_cases hax : a = x
      · have hc : 1 ≤ List.count x l := List.one_le_count_iff.mpr (hax ▸ hamem)
        by_cases hbx : b = x <;> simp [hax, hbx] <;> omega
      · by_cases hbx : b = x
        · have hc : 1 ≤ List.count x l := List.one_le_count_iff.mpr (hbx ▸ hbmem)
          simp [hax, hbx] <;> omega
        · simp [hax, hbx]
  next => exact List.Perm.refl _

theorem shuffleGo_perm {α : Type} [DecidableEq α] (rand : Nat → Nat) :
    ∀ (n : Nat) (arr : List α), (shuffleGo rand arr n).Perm arr := by
  intro n
  induction n with
  | zero => intro arr; exact List.Perm.refl _
  | succ i ih =>
      intro arr
      rw [shuffleGo]
      exact (ih _).trans (swapIdx_perm arr (i + 1) (rand (i + 1) % (i + 2)))

theorem shuffle_perm {α : Type} [DecidableEq α] (rand : Nat → Nat)
    (arr : List α) : (shuffle rand arr).Perm arr :=
  shuffleGo_perm rand (arr.length - 1) arr

/-- The facilitator-local speaker queue state, as persisted per
session. -/
structure SpeakerState where
  spoken : List (List Nat)
  speakingNow : Option (List Nat)
  readyOrder : List (List Nat)
deriving DecidableEq, Repr

/-- Models `nextSpeaker` on the names of the current updates: empty
roster is a no-op; with every name already spoken the queue is cleared;
otherwise a fresh random permutation of the not-yet-spoken names becomes
the ready order and its head the speaker (`order[0] || null`: an empty
name is falsy and yields null). -/
def nextSpeaker (rand : Nat → Nat) (updatesNames : List (List Nat))
    (s : SpeakerState) : SpeakerState :=
  if updatesNames = [] then s
  else
    let ready := updatesNames.filter fun n => !s.spoken.contains n
    if ready = [] then { s with speakingNow := none, readyOrder := [] }
    else
      let order := shuffle rand ready
      { s with readyOrder := order,
               speakingNow :=
                 match order.head? with
                 | some nm => if nm = [] then none else some nm
                 | none => none }

/-- Models `speakerFinished`: a falsy `speakingNow` (null, here `none`
or the empty name, both collapsed to the empty name by `getD`) is a
no-op; otherwise the speaker is pushed onto `spoken` unless already
there, removed from the ready order, and cleared. -/
def speakerFinished (s : SpeakerState) : SpeakerState :=
  if s.speakingNow.getD [] = [] then s
  else
    { spoken :=
        if s.spoken.contains (s.speakingNow.getD []) then s.spoken
        else s.spoken ++ [s.speakingNow.getD []],
      speakingNow := none,
      readyOrder := s.readyOrder.filter fun n => n ≠ s.speakingNow.getD [] }

theorem speakerFinished_some (s : SpeakerState) (w : List Nat)
    (hw : s.speakingNow = some w) (hne : w ≠ []) :
    speakerFinished s =
      { spoken := if s.spoken.contains w then s.spoken else s.spoken ++ [w],
        speakingNow := none,
        readyOrder := s.readyOrder.filter fun n => n ≠ w } := by
  rw [speakerFinished, hw]
  simp only [Option.getD_some]
  rw [if_neg hne]

theorem speakerFinished_none (s : SpeakerState) (h : s.speakingNow = none) :
    speakerFinished s = s := by
  rw [speakerFinished, h]
  simp

theorem countDec_eq_count (l : List (List Nat)) (a : List Nat) :
    @List.count (List Nat) instBEqOfDecidableEq a l = l.count a := by
  induction l with
  | nil => rfl
  | cons x xs ih => by_cases h : x = a <;> simp [List.count_cons, ih, h]

/-- C9: with no one spoken and a non-empty duplicate-free roster of
(non-empty) writer names, `nextSpeaker` makes the ready order a
permutation of the roster (each name exactly once) and sets the head as
speaking; `speakerFinished` then appends the speaker to the spoken list
exactly once, clears speaking, and a second call in a row changes
nothing; and when every name has already spoken, `nextSpeaker` clears
speaking and leaves an empty ready order. -/
theorem speakerQueue_advance_finish (rand : Nat → Nat)
    (names : List (List Nat)) (s : SpeakerState)
    (h1 : names ≠ []) (h2 : names.Nodup) (h3 : ∀ n ∈ names, n ≠ [])
    (h4 : s.spoken = []) :
    ((nextSpeaker rand names s).readyOrder.Perm names ∧
     (∀ n ∈ names, (nextSpeaker rand names s).readyOrder.count n = 1) ∧
     ∃ w, (nextSpeaker rand names s).speakingNow = some w ∧ w ∈ names ∧
       (nextSpeaker rand names s).readyOrder.head? = some w) ∧
    (∀ w, w ∈ names → (nextSpeaker rand names s).speakingNow = some w →
      (speakerFinished (nextSpeaker rand names s)).spoken = s.spoken ++ [w] ∧
      (speakerFinished (nextSpeaker rand names s)).speakingNow = none ∧
      speakerFinished (speakerFinished (nextSpeaker rand names s)) =
        speakerFinished (nextSpeaker rand names s)) ∧
    (∀ s2 : SpeakerState, (∀ n ∈ names, n ∈ s2.spoken) →
      (nextSpeaker rand names s2).speakingNow = none ∧
      (nextSpeaker rand names s2).readyOrder = []) := by
  have hready : names.filter (fun n => !s.spoken.contains n) = names := by
    rw [h4]
    apply List.filter_eq_self.mpr
    intro n _
    rfl
  have hnx : nextSpeaker rand names s =
      { s with readyOrder := shuffle rand names,
               speakingNow :=
                 match (shuffle rand names).head? with
                 | some nm => if nm = [] then none else some nm
                 | none => none } := by
    rw [nextSpeaker, if_neg h1]
    simp only [hready]
    rw [if_neg h1]
  have hperm : (shuffle rand names).Perm names := shuffle_perm rand names
  have hne : shuffle rand names ≠ [] := by
    intro h
    rw [h] at hperm
    exact h1 hperm.nil_eq.symm
  obtain ⟨w0, rest0, horder⟩ := List.exists_cons_of_ne_nil hne
  have hw0mem : w0 ∈ names := hperm.subset (by rw [horder]; simp)
  have hw0ne : w0 ≠ [] := h3 w0 hw0mem
  refine ⟨⟨?_, ?_, ?_⟩, ?_, ?_⟩
  · rw [hnx]
    exact hperm
  · intro n hn
    rw [hnx]
    simp only
    rw [← countDec_eq_count, hperm.count_eq n]
    exact List.count_eq_one_of_mem h2 hn
  · refine ⟨w0, ?_, hw0mem, ?_⟩
    · rw [hnx]
      simp only [horder, List.head?_cons]
      rw [if_neg hw0ne]
    · rw [hnx]
      simp only [horder, List.head?_cons]
  · intro w hwmem hw
    have hwne : w ≠ [] := h3 w hwmem
    have hsp : (nextSpeaker rand names s).spoken = [] := by
      rw [hnx]
      exact h4
    have hfin := speakerFinished_some (nextSpeaker rand names s) w hw hwne
    refine ⟨?_, ?_, ?_⟩
    · rw [hfin]
      simp [hsp, h4]
    · rw [hfin]
    · rw [hfin]
      exact speakerFinished_none _ rfl
  · intro s2 hall
    constructor <;> simp [nextSpeaker, h1] <;> rw [if_pos hall]

/-- C9, witness: the queue facts at the concrete roster A, B, C with a
deterministic random source. -/
theorem speakerQueue_advance_finish_witness :
    (nextSpeaker (fun _ => 0) [[65], [66], [67]]
        ⟨[], none, []⟩).readyOrder.Perm [[65], [66], [67]] ∧
    (speakerFinished (nextSpeaker (fun _ => 0) [[65], [66], [67]]
        ⟨[], none, []⟩)).spoken = [[66]] ∧
    (nextSpeaker (fun _ => 0) [[65], [66], [67]]
        ⟨[[65], [66], [67]], none, []⟩).speakingNow = none := by
  have h := speakerQueue_advance_finish (fun _ => 0) [[65], [66], [67]]
    ⟨[], none, []⟩ (by decide) (by decide) (by decide) rfl
  refine ⟨h.1.1, ?_, (h.2.2 ⟨[[65], [66], [67]], none, []⟩ (by decide)).1⟩
  exact (h.2.1 [66] (by decide) (by decide)).1

/-- Models the test of the regular expression \s* REACTIONS_B64 \s* =
anchored at the start of a line, used by `upsertMyReactions` to locate
the reactions line. -/
def matchesReactionsKey (l : List Nat) : Bool :=
  kREACTIONS_B64.isPrefixOf (l.dropWhile isJsWs) &&
    (((l.dropWhile isJsWs).drop kREACTIONS_B64.length).dropWhile
        isJsWs).head? == some 61

/-- The line written by `upsertMyReactions` for the reactions payload:
the key, an equals sign and the quoted base64 text. -/
def reactionsLine (encoded : List Nat) : List Nat :=
  kREACTIONS_B64 ++ 61 :: quoteWrap encoded

/-- The updated line list of `upsertMyReactions`: replace the first
matching line in place, or push a new one at the end. -/
def upsertReactionLinesList (text encoded : List Nat) : List (List Nat) :=
  match (splitLines text).findIdx? matchesReactionsKey with
  | some idx => (splitLines text).set idx (reactionsLine encoded)
  | none => splitLines text ++ [reactionsLine encoded]

/-- Models the content surgery of `upsertMyReactions`: split the file on
CRLF-or-LF, upsert the reactions line, join with newlines. -/
def upsertMyReactionsText (text encoded : List Nat) : List Nat :=
  joinLines (upsertReactionLinesList text encoded)

/-- Every field of a parsed record except the embedded reactions
sub-document. -/
def nonReactionFields (p : ParsedRecord) :
    List Nat × List Nat × List Nat × Option JsNum × Option JsNum ×
      List Nat × List Nat :=
  (p.team, p.name, p.session, p.feeling, p.productivity, p.update,
   p.updated_at)

theorem applyKey_reactions_frame (out : ParsedRecord) (v : List Nat) :
    nonReactionFields (applyKey out kREACTIONS_B64 v) =
      nonReactionFields out := by
  rw [applyKey]
  rw [if_neg (by decide), if_neg (by decide), if_neg (by decide),
      if_neg (by decide), if_neg (by decide), if_neg (by decide),
      if_neg (by decide), if_neg (by decide), if_pos rfl]
  split <;> rfl

theorem dropWhile_until_61 (a b : List Nat) :
    (a ++ 61 :: b).dropWhile isJsWs = a.dropWhile isJsWs ++ 61 :: b := by
  induction a with
  | nil =>
      rw [List.nil_append, List.dropWhile_cons, if_neg (by decide),
          List.dropWhile_nil, List.nil_append]
  | cons c a2 ih =>
      rw [List.cons_append, List.dropWhile_cons, List.dropWhile_cons]
      by_cases hc : isJsWs c = true
      · rw [if_pos hc, if_pos hc, ih]
      · rw [if_neg hc, if_neg hc, List.cons_append]

theorem dropWhile_ws_append (w rest : List Nat)
    (hw : ∀ c ∈ w, isJsWs c = true) :
    (w ++ rest).dropWhile isJsWs = rest.dropWhile isJsWs := by
  induction w with
  | nil => rfl
  | cons c w2 ih =>
      rw [List.cons_append, List.dropWhile_cons, if_pos (hw c (by simp))]
      exact ih fun x hx => hw x (by simp [hx])

theorem reverse_append_61 (a b : List Nat) :
    (a ++ 61 :: b).reverse = b.reverse ++ 61 :: a.reverse := by
  simp

/-- The quoted reactions line written by the upsert matches the locating
pattern, so a second upsert replaces it in place. -/
theorem matchesReactionsKey_reactionsLine (encoded : List Nat) :
    matchesReactionsKey (reactionsLine encoded) = true := by
  rw [matchesReactionsKey, reactionsLine]
  rw [dropWhile_eq_self_of_head _ (by
    intro c hc
    have h2 : some (82 : Nat) = some c := hc
    injection h2 with h3
    subst h3
    decide)]
  rw [show (kREACTIONS_B64 ++ 61 :: quoteWrap encoded).drop
        kREACTIONS_B64.length = 61 :: quoteWrap encoded from
      List.drop_left _ _]
  rw [List.dropWhile_cons, if_neg (by decide), List.head?_cons]
  simp [List.isPrefixOf_iff_prefix, List.prefix_append]

/-- `lineKeyVal` on a raw line whose trim splits as `key ++ = ++ value`
with a clean key. -/
theorem lineKeyVal_trim (raw kp v : List Nat)
    (hline : trimJs raw = kp ++ 61 :: v)
    (hne : kp ≠ [])
    (h61 : ∀ c ∈ kp, c ≠ 61)
    (hhead : ∀ c, kp.head? = some c → c ≠ 35) :
    lineKeyVal raw =
      some (toUpperAscii (trimJs kp), unquote (trimJs v)) := by
  rw [lineKeyVal]
  simp only [hline]
  rw [if_neg (by cases kp with
    | nil => exact absurd rfl hne
    | cons a kp2 => simp)]
  rw [if_neg (by cases kp with
    | nil => exact absurd rfl hne
    | cons a kp2 =>
        simp only [List.cons_append, List.head?_cons, Option.some.injEq]
        exact (hhead a rfl))]
  rw [findIdx61_append kp _ h61]
  simp only
  rw [List.take_left, drop_key_val]

/-- A line matching the locating pattern parses to the REACTIONS_B64 key:
the regular expression pins the line head to whitespace, the key and an
equals sign, so the split at the first equals sign recovers exactly the
key. -/
theorem lineKeyVal_matched (raw : List Nat)
    (h : matchesReactionsKey raw = true) :
    ∃ v, lineKeyVal raw = some (kREACTIONS_B64, v) := by
  rw [matchesReactionsKey] at h
  simp only [Bool.and_eq_true, beq_iff_eq] at h
  obtain ⟨hpre, hhd⟩ := h
  rw [List.isPrefixOf_iff_prefix] at hpre
  obtain ⟨t, ht⟩ := hpre
  rw [← ht, List.drop_left] at hhd
  obtain ⟨u, hu⟩ := List.head?_eq_some_iff.mp hhd
  have htw : t.takeWhile isJsWs ++ 61 :: u = t := by
    rw [← hu]
    exact List.takeWhile_append_dropWhile _ _
  have hwws : ∀ c ∈ t.takeWhile isJsWs, isJsWs c = true :=
    fun c hc => List.mem_takeWhile_imp hc
  have hr : raw.dropWhile isJsWs =
      (kREACTIONS_B64 ++ t.takeWhile isJsWs) ++ 61 :: u := by
    conv_lhs => rw [← ht, ← htw]
    simp
  have hline : trimJs raw = (kREACTIONS_B64 ++ t.takeWhile isJsWs) ++
      61 :: (u.reverse.dropWhile isJsWs).reverse := by
    rw [trimJs, hr, reverse_append_61, dropWhile_until_61,
        reverse_append_61, List.reverse_reverse]
  refine ⟨unquote (trimJs ((u.reverse.dropWhile isJsWs).reverse)), ?_⟩
  rw [lineKeyVal_trim raw (kREACTIONS_B64 ++ t.takeWhile isJsWs) _ hline
    (by simp [kREACTIONS_B64])
    (by
      intro c hc
      rcases List.mem_append.mp hc with h2 | h2
      · simp [kREACTIONS_B64] at h2
        omega
      · intro hc61
        subst hc61
        exact absurd (hwws 61 h2) (by decide))
    (by
      intro c hc
      have h2 : some (82 : Nat) = some c := hc
      injection h2 with h3
      subst h3
      decide)]
  have htrimk : trimJs (kREACTIONS_B64 ++ t.takeWhile isJsWs) =
      kREACTIONS_B64 := by
    rw [trimJs]
    rw [dropWhile_eq_self_of_head (kREACTIONS_B64 ++ t.takeWhile isJsWs) (by
      intro c hc
      have h2 : some (82 : Nat) = some c := hc
      injection h2 with h3
      subst h3
      decide)]
    rw [List.reverse_append]
    rw [dropWhile_ws_append _ _
      (fun c hc => hwws c (List.mem_reverse.mp hc))]
    rw [dropWhile_eq_self_of_head kREACTIONS_B64.reverse (by
      intro c hc
      have h2 : some (52 : Nat) = some c := hc
      injection h2 with h3
      subst h3
      decide)]
    exact List.reverse_reverse _
  rw [htrimk]
  rw [show toUpperAscii kREACTIONS_B64 = kREACTIONS_B64 from by decide]

/-- A line matching the locating pattern can only assign the embedded
reactions sub-document; every other parsed field passes through. -/
theorem processLine_matched_frame (out : ParsedRecord) (raw : List Nat)
    (h : matchesReactionsKey raw = true) :
    nonReactionFields (processLine out raw) = nonReactionFields out := by
  obtain ⟨v, hv⟩ := lineKeyVal_matched raw h
  rw [processLine, hv]
  exact applyKey_reactions_frame out v

set_option maxHeartbeats 1000000 in
/-- The non-reaction fields after one parse step depend only on the
non-reaction fields before it. -/
theorem processLine_congr (a b : ParsedRecord) (l : List Nat)
    (h : nonReactionFields a = nonReactionFields b) :
    nonReactionFields (processLine a l) =
      nonReactionFields (processLine b l) := by
  rw [processLine, processLine]
  cases hkv : lineKeyVal l with
  | none => exact h
  | some kv =>
      show nonReactionFields (applyKey a kv.1 kv.2) =
        nonReactionFields (applyKey b kv.1 kv.2)
      simp only [nonReactionFields, Prod.mk.injEq] at h
      obtain ⟨h1, h2, h3, h4, h5, h6, h7⟩ := h
      rw [applyKey, applyKey]
      repeat' split
      all_goals simp_all [nonReactionFields]

theorem foldl_processLine_congr (l : List (List Nat)) :
    ∀ a b : ParsedRecord, nonReactionFields a = nonReactionFields b →
      nonReactionFields (l.foldl processLine a) =
        nonReactionFields (l.foldl processLine b) := by
  induction l with
  | nil => intro a b h; exact h
  | cons x xs ih =>
      intro a b h
      rw [List.foldl_cons, List.foldl_cons]
      exact ih _ _ (processLine_congr a b x h)

theorem foldl_processLine_set (lines : List (List Nat)) (idx : Nat)
    (nl : List Nat) (out : ParsedRecord)
    (hold : ∀ l, lines[idx]? = some l → matchesReactionsKey l = true)
    (hnew : matchesReactionsKey nl = true) :
    nonReactionFields ((lines.set idx nl).foldl processLine out) =
      nonReactionFields (lines.foldl processLine out) := by
  induction lines generalizing idx out with
  | nil => rfl
  | cons x xs ih =>
      cases idx with
      | zero =>
          rw [List.set_cons_zero, List.foldl_cons, List.foldl_cons]
          apply foldl_processLine_congr
          rw [processLine_matched_frame out nl hnew,
              processLine_matched_frame out x (hold x (by simp))]
      | succ n =>
          rw [List.set_cons_succ, List.foldl_cons, List.foldl_cons]
          exact ih n (processLine out x)
            (fun l hl => hold l (by rw [List.getElem?_cons_succ]; exact hl))

theorem parseLines_append_matched (lines : List (List Nat)) (nl : List Nat)
    (hnew : matchesReactionsKey nl = true) :
    nonReactionFields (parseLines (lines ++ [nl])) =
      nonReactionFields (parseLines lines) := by
  rw [parseLines, parseLines, List.foldl_append, List.foldl_cons,
      List.foldl_nil]
  exact processLine_matched_frame _ nl hnew

/-- C10: the reaction write replaces the first line matching the
REACTIONS_B64 pattern in place — every line at any other index is carried
into the written content character-for-character — or appends the new
reactions line when no line matches, and in both cases the parse of the
resulting line list agrees with the parse of the original lines on every
field other than the embedded reactions sub-document. -/
theorem upsertMyReactions_frame (text encoded : List Nat) :
    (∀ idx, (splitLines text).findIdx? matchesReactionsKey = some idx →
      upsertReactionLinesList text encoded =
        (splitLines text).set idx (reactionsLine encoded) ∧
      (upsertReactionLinesList text encoded)[idx]? =
        some (reactionsLine encoded) ∧
      (∀ j, j ≠ idx → (upsertReactionLinesList text encoded)[j]? =
        (splitLines text)[j]?) ∧
      ∃ old, (splitLines text)[idx]? = some old ∧
        matchesReactionsKey old = true) ∧
    ((splitLines text).findIdx? matchesReactionsKey = none →
      upsertReactionLinesList text encoded =
        splitLines text ++ [reactionsLine encoded] ∧
      (∀ l ∈ splitLines text, matchesReactionsKey l = false) ∧
      (∀ j, j < (splitLines text).length →
        (upsertReactionLinesList text encoded)[j]? =
          (splitLines text)[j]?)) ∧
    nonReactionFields (parseLines (upsertReactionLinesList text encoded)) =
      nonReactionFields (parseLines (splitLines text)) := by
  refine ⟨?_, ?_, ?_⟩
  · intro idx hidx
    have hlt : idx < (splitLines text).length :=
      (List.findIdx?_eq_some_iff_findIdx_eq.mp hidx).1
    have hset : upsertReactionLinesList text encoded =
        (splitLines text).set idx (reactionsLine encoded) := by
      rw [upsertReactionLinesList, hidx]
    refine ⟨hset, ?_, ?_, ?_⟩
    · rw [hset]
      exact List.getElem?_set_self hlt
    · intro j hj
      rw [hset]
      exact List.getElem?_set_ne (fun h => hj h.symm)
    · obtain ⟨hlt2, hfi⟩ := List.findIdx?_eq_some_iff_findIdx_eq.mp hidx
      refine ⟨(splitLines text)[idx], List.getElem?_eq_some.mpr ⟨hlt, rfl⟩,
        ?_⟩
      subst hfi
      exact List.findIdx_getElem (w := hlt2)
  · intro hidx
    have happ : upsertReactionLinesList text encoded =
        splitLines text ++ [reactionsLine encoded] := by
      rw [upsertReactionLinesList, hidx]
    refine ⟨happ, List.findIdx?_eq_none_iff.mp hidx, ?_⟩
    intro j hj
    rw [happ, List.getElem?_append, if_pos hj]
  · cases hidx : (splitLines text).findIdx? matchesReactionsKey with
    | none =>
        rw [show upsertReactionLinesList text encoded =
              splitLines text ++ [reactionsLine encoded] from by
            rw [upsertReactionLinesList, hidx]]
        exact parseLines_append_matched _ _
          (matchesReactionsKey_reactionsLine encoded)
    | some idx =>
        rw [show upsertReactionLinesList text encoded =
              (splitLines text).set idx (reactionsLine encoded) from by
            rw [upsertReactionLinesList, hidx]]
        rw [parseLines, parseLines]
        apply foldl_processLine_set
        · intro l hl
          obtain ⟨hlt2, hfi⟩ := List.findIdx?_eq_some_iff_findIdx_eq.mp hidx
          obtain ⟨h5, h6⟩ := List.getElem?_eq_some.mp hl
          subst h6
          subst hfi
          exact List.findIdx_getElem (w := hlt2)
        · exact matchesReactionsKey_reactionsLine encoded

/-- C10, witness: the frame facts at a concrete two-line body whose
second line holds the reactions. -/
theorem upsertMyReactions_frame_witness :
    upsertReactionLinesList
        [84, 69, 65, 77, 61, 34, 120, 34, 10,
         82, 69, 65, 67, 84, 73, 79, 78, 83, 95, 66, 54, 52, 61, 34, 111, 34]
        [89, 81, 61, 61] =
      (splitLines
        [84, 69, 65, 77, 61, 34, 120, 34, 10,
         82, 69, 65, 67, 84, 73, 79, 78, 83, 95, 66, 54, 52, 61, 34, 111, 34]).set
        1 (reactionsLine [89, 81, 61, 61]) ∧
    (upsertReactionLinesList
        [84, 69, 65, 77, 61, 34, 120, 34, 10,
         82, 69, 65, 67, 84, 73, 79, 78, 83, 95, 66, 54, 52, 61, 34, 111, 34]
        [89, 81, 61, 61])[0]? =
      (splitLines
        [84, 69, 65, 77, 61, 34, 120, 34, 10,
         82, 69, 65, 67, 84, 73, 79, 78, 83, 95, 66, 54, 52, 61, 34, 111, 34])[0]? ∧
    nonReactionFields (parseLines (upsertReactionLinesList
        [84, 69, 65, 77, 61, 34, 120, 34, 10,
         82, 69, 65, 67, 84, 73, 79, 78, 83, 95, 66, 54, 52, 61, 34, 111, 34]
        [89, 81, 61, 61])) =
      nonReactionFields (parseLines (splitLines
        [84, 69, 65, 77, 61, 34, 120, 34, 10,
         82, 69, 65, 67, 84, 73, 79, 78, 83, 95, 66, 54, 52, 61, 34, 111, 34])) := by
  have h := upsertMyReactions_frame
    [84, 69, 65, 77, 61, 34, 120, 34, 10,
     82, 69, 65, 67, 84, 73, 79, 78, 83, 95, 66, 54, 52, 61, 34, 111, 34]
    [89, 81, 61, 61]
  exact ⟨(h.1 1 (by decide)).1, (h.1 1 (by decide)).2.2.1 0 (by decide),
    h.2.2⟩

end RoundTable
